import Mathlib

/-!
Verification development for the affiliate-hub dashboard (src/app.py, src/job.py).

Modelling conventions (shallow embedding):
* Python floats are modelled as rationals (ℚ); all arithmetic the code performs
  on amounts is thereby exact.
* A raw API row (a JSON object of scalars) is an association list from field
  name to a scalar `JVal`; a JSON `null` field is modelled as an absent key,
  because every access path in the code (`dict.get` plus `is None` checks or
  truthiness) treats `null` and absent identically.
* Network and SMTP I/O is modelled by explicit oracle parameters (the rows a
  fetch would return, an `Except` for a fetch that can raise, the outcome of an
  SMTP delivery attempt, the body of the FX-service response).
* Timestamps are integers (the code only ever compares differences of
  timestamps against a cooldown and stores them opaquely).
-/

namespace AffiliateHub

/-- A JSON scalar as the adapters see it: a number or a string. -/
inductive JVal where
  | jnum (q : ℚ)
  | jstr (s : String)
deriving DecidableEq

/-- A raw API row: JSON object of scalars, field name to value. -/
abbrev Row := List (String × JVal)

/-- `r.get(k)` for a row: first binding of the key, `none` when absent (or JSON null). -/
def rget (r : Row) (k : String) : Option JVal :=
  (r.find? (fun kv => kv.1 == k)).map (fun kv => kv.2)

/-- Python truthiness of a `dict.get` result: `None`, `0` and `""` are falsy. -/
def pyTruthy : Option JVal → Bool
  | none => false
  | some (.jnum q) => q != 0
  | some (.jstr s) => s != ""

/-- Python `a or b` on two `dict.get` results. -/
def pyOr (a b : Option JVal) : Option JVal :=
  if pyTruthy a then a else b

/-- Python `str()` of a `dict.get` result. -/
def pyStr : Option JVal → String
  | some (.jstr s) => s
  | some (.jnum q) => toString q
  | none => "None"

/-- `t.get(k, "")`: the value when the key is present, else the default string. -/
def pyStrD (o : Option JVal) (d : String) : String :=
  match o with
  | some v => pyStr (some v)
  | none => d

/-- Python `s.upper()` (per-character, as for the ASCII currency/status strings
the adapters handle). -/
def pyUpper (s : String) : String :=
  String.mk (s.toList.map Char.toUpper)

/-- Python `s.lower()`. -/
def pyLower (s : String) : String :=
  String.mk (s.toList.map Char.toLower)

/-- The whitespace set Python `str.strip()` removes. -/
def isPySpace (c : Char) : Bool :=
  c == ' ' || c == '\t' || c == '\n' || c == '\r' || c == '\x0b' || c == '\x0c'

/-- Python `s.strip()`. -/
def pyStrip (s : String) : String :=
  String.mk (((s.toList.dropWhile isPySpace).reverse.dropWhile isPySpace).reverse)

/-- Numeric value of a digit string (caller has checked `isDigit`). -/
def digitsToNat (cs : List Char) : ℕ :=
  cs.foldl (fun a c => a * 10 + (c.toNat - 48)) 0

/-- Parse an unsigned decimal literal (`"12"`, `"12.5"`, `"5."`, `".5"`),
the forms Python `float()` accepts that the affiliate APIs emit. -/
def parseUnsignedDecimal (cs : List Char) : Option ℚ :=
  match cs.splitOn '.' with
  | [ip] =>
      if ip ≠ [] ∧ ip.all Char.isDigit then some ((digitsToNat ip : ℕ) : ℚ) else none
  | [ip, fp] =>
      if (ip ≠ [] ∨ fp ≠ []) ∧ ip.all Char.isDigit ∧ fp.all Char.isDigit then
        some (((digitsToNat ip : ℕ) : ℚ) + ((digitsToNat fp : ℕ) : ℚ) / ((10 : ℚ) ^ fp.length))
      else none
  | _ => none

/-- Python `float(s.replace(",", "").strip())`, `none` when `float` raises.
(Exponent forms are not modelled; no adapter row carries them. `float` itself
tolerates surrounding whitespace, so the Addrevenue/Dognet variant without
`.strip()` behaves identically.) -/
def parsePyFloat (s : String) : Option ℚ :=
  let noCommas := s.toList.filter (fun c => c != ',')
  let t := ((noCommas.dropWhile isPySpace).reverse.dropWhile isPySpace).reverse
  match t with
  | '-' :: rest => (parseUnsignedDecimal rest).map (fun q => -q)
  | '+' :: rest => parseUnsignedDecimal rest
  | _ => parseUnsignedDecimal t

/-- `to_num` (app.py, job.py): ints/floats pass through, strings are parsed with
commas stripped (0.0 on failure), anything else is 0.0. -/
def to_num : Option JVal → ℚ
  | some (.jnum q) => q
  | some (.jstr s) => (parsePyFloat s).getD 0
  | none => 0

/-- The body of the FX service response: total transport failure, or a JSON
object whose `result` field is the given scalar (absent/null → `none`). -/
inductive FxResp where
  | fail
  | ok (result : Option JVal)
deriving DecidableEq

/-- `get_fx_rate` (app.py:181, job.py:119): 1.0 when either code is blank or they
match case-insensitively; otherwise `float(data.get("result") or 1.0)` with any
exception collapsing to 1.0. -/
def get_fx_rate (base target : String) (resp : FxResp) : ℚ :=
  if base = "" ∨ target = "" ∨ pyUpper base = pyUpper target then 1
  else
    match resp with
    | .fail => 1
    | .ok none => 1
    | .ok (some (.jnum q)) => if q = 0 then 1 else q
    | .ok (some (.jstr s)) =>
        if s = "" then 1
        else match parsePyFloat s with
          | some q => q
          | none => 1

/-- The conversion the callers perform: amount times the looked-up rate. -/
def convert (amount : ℚ) (base target : String) (resp : FxResp) : ℚ :=
  amount * get_fx_rate base target resp

/-- A normalized commission snapshot. Only the meta key the claims inspect
(`reason`) is modelled; the other meta entries are presentation data. -/
structure Snapshot where
  total_comm : ℚ
  confirmed_comm : ℚ
  pending_comm : ℚ
  raw : List Row
  meta_reason : Option String
deriving DecidableEq

/-- The sum invariant of the spec: `abs(total - (confirmed + pending)) < 1e-6`. -/
def sumInvariant (s : Snapshot) : Prop :=
  |s.total_comm - (s.confirmed_comm + s.pending_comm)| < 1 / 1000000

/-! ### AWIN advertiser-performance report (`get_earnings`, app.py:1830, job.py:184) -/

/-- Sum of `to_num(row.get("confirmedComm"))` over the report rows. -/
def earnConfSum (rows : List Row) : ℚ :=
  (rows.map (fun r => to_num (rget r "confirmedComm"))).sum

/-- Sum of `to_num(row.get("pendingComm"))` over the report rows. -/
def earnPendSum (rows : List Row) : ℚ :=
  (rows.map (fun r => to_num (rget r "pendingComm"))).sum

/-- Sum of `to_num(row.get("totalComm"))` over the report rows. -/
def earnTotalSum (rows : List Row) : ℚ :=
  (rows.map (fun r => to_num (rget r "totalComm"))).sum

/-- The source-currency probe of `get_earnings`: loop over the first three rows,
each iteration overwriting `src` with `currency or currencyCode or src or "EUR"`,
then upper-case the final value. -/
def earnSrcCcy (rows : List Row) : String :=
  pyUpper ((rows.take 3).foldl
    (fun acc r =>
      pyStr (pyOr (rget r "currency")
        (pyOr (rget r "currencyCode")
          (pyOr (some (.jstr acc)) (some (.jstr "EUR")))))) "EUR")

/-- `get_earnings` aggregation (app.py:1830, job.py:184). The HTTP fetch and the
region-string plumbing produce `rows`; on a non-OK response the function raises
(that path is not a Snapshot). `preferredCcy` is the PREFERRED_CURRENCY env
value after `or "EUR"` defaulting. -/
def get_earnings (rows : List Row) (preferredCcy : String) (fxResp : FxResp) : Snapshot :=
  let confirmed := earnConfSum rows
  let pending := earnPendSum rows
  let total0 := earnTotalSum rows
  let total := if total0 = 0 ∧ (confirmed ≠ 0 ∨ pending ≠ 0) then confirmed + pending else total0
  let fx := get_fx_rate (earnSrcCcy rows) (pyUpper preferredCcy) fxResp
  { total_comm := total * fx
    confirmed_comm := confirmed * fx
    pending_comm := pending * fx
    raw := rows
    meta_reason := none }

/-! ### AWIN transactions endpoint (`get_commission_from_transactions`,
app.py:1910, job.py:244) -/

/-- Does `ns` occur as a contiguous sublist of the second list? -/
def containsSub (ns : List Char) : List Char → Bool
  | [] => ns.isEmpty
  | c :: t => ns.isPrefixOf (c :: t) || containsSub ns t

/-- Python `needle in hay` on strings. -/
def strContains (hay needle : String) : Bool :=
  containsSub needle.toList hay.toList

/-- The truthy click-ref-bearing values of a transaction row, in probe order. -/
def awinClickrefVals (t : Row) : List String :=
  ["clickRef", "clickRef2", "clickRef3", "clickRef4", "clickRef5", "clickRef6"].filterMap
    (fun k => if pyTruthy (rget t k) then some (pyStr (rget t k)) else none)

/-- `match_clickref` of the transactions aggregation. -/
def matchClickref (wantRefs : List String) (contains : Bool) (t : Row) : Bool :=
  if wantRefs = [] then true
  else
    let vals := awinClickrefVals t
    if vals = [] then false
    else if contains then
      wantRefs.any (fun w => vals.any (fun v => strContains (pyLower v) (pyLower w)))
    else
      wantRefs.any (fun w => vals.any (fun v => pyLower v == pyLower w))

/-- `(t.get("status") or "").lower()`. -/
def rowStatusLower (t : Row) : String :=
  pyLower (pyStr (pyOr (rget t "status") (some (.jstr ""))))

/-- The optional status filter: `str(t.get("status","")).lower() == sf`. A falsy
filter value (None or empty) applies no filtering. -/
def applyStatusFilter (statusFilter : Option String) (l : List Row) : List Row :=
  match statusFilter with
  | none => l
  | some sfv =>
      if sfv = "" then l
      else l.filter (fun t => pyLower (pyStrD (rget t "status") "") == pyLower sfv)

/-- Python `a or b` on two floats: `b` when `a` is zero. -/
def pyOrQ (a b : ℚ) : ℚ :=
  if a = 0 then b else a

/-- Per-row commission of the transactions aggregation (app.py:2009): a Python
`or`-chain over `to_num` of `commissionAmount`, `commission`,
`publisherCommission`, ending in `0.0` — so a candidate parsing to zero falls
through to the next. -/
def awinTxAmount (t : Row) : ℚ :=
  pyOrQ (to_num (rget t "commissionAmount"))
    (pyOrQ (to_num (rget t "commission"))
      (pyOrQ (to_num (rget t "publisherCommission")) 0))

/-- The source-currency probe of the transactions aggregation: first three
filtered rows, last-write-wins, keys `currency` then `commissionCurrency`. -/
def txSrcCcy (l : List Row) : String :=
  pyUpper ((l.take 3).foldl
    (fun acc r =>
      pyStr (pyOr (rget r "currency")
        (pyOr (rget r "commissionCurrency")
          (pyOr (some (.jstr acc)) (some (.jstr "EUR")))))) "EUR")

/-- `get_commission_from_transactions` (app.py:1910, job.py:244). `startOrd` and
`endOrd` are calendar-day ordinals, so `(e - s).days = endOrd - startOrd`.
`fetched` is what the (possibly chunked) transactions endpoint returned. -/
def get_commission_from_transactions (startOrd endOrd : Int) (clickrefs : List String)
    (contains : Bool) (statusFilter : Option String) (fetched : List Row)
    (preferredCcy : String) (fxResp : FxResp) : Except String Snapshot :=
  if endOrd - startOrd > 30 then
    .error "Transactions API supports max 31 days. Reduce window (<=31)."
  else
    let wantRefs := (clickrefs.filter (fun c => pyStrip c ≠ "")).map pyStrip
    let filtered := applyStatusFilter statusFilter (fetched.filter (matchClickref wantRefs contains))
    let fx := get_fx_rate (txSrcCcy filtered) (pyUpper preferredCcy) fxResp
    let confirmed := ((filtered.filter (fun t => rowStatusLower t == "approved")).map awinTxAmount).sum
    let pending := ((filtered.filter (fun t => rowStatusLower t == "pending")).map awinTxAmount).sum
    .ok
      { total_comm := (confirmed + pending) * fx
        confirmed_comm := confirmed * fx
        pending_comm := pending * fx
        raw := filtered
        meta_reason := none }

/-! ### Addrevenue (`addrev_commission_aggregate`, app.py:260, job.py:398) -/

/-- `get_amount` (app.py:271): probe the candidate keys in order, skip absent or
null, return the first value `float(str(v).replace(",", ""))` parses —
including zero — and fall through on a parse failure; 0.0 when all fail. -/
def probeFirstParse (r : Row) : List String → ℚ
  | [] => 0
  | k :: ks =>
      match rget r k with
      | none => probeFirstParse r ks
      | some (.jnum q) => q
      | some (.jstr s) =>
          match parsePyFloat s with
          | some q => q
          | none => probeFirstParse r ks

/-- The Addrevenue amount probe order. -/
def addrevAmountKeys : List String :=
  ["commission", "publisherCommission", "reward", "amount", "value"]

/-- Addrevenue per-row amount. -/
def addrevAmount (r : Row) : ℚ :=
  probeFirstParse r addrevAmountKeys

/-- `detect_ccy` of the Addrevenue aggregation: first truthy of `currency`,
`currencyCode`, `commissionCurrency`, upper-cased, else the default currency. -/
def addrevDetectCcy (dflt : String) (r : Row) : String :=
  match ["currency", "currencyCode", "commissionCurrency"].find?
      (fun k => pyTruthy (rget r k)) with
  | some k => pyUpper (pyStr (rget r k))
  | none => dflt

/-- `str(r.get("status") or r.get("state") or "").lower()`. -/
def addrevStatusLower (r : Row) : String :=
  pyLower (pyStr (pyOr (rget r "status") (pyOr (rget r "state") (some (.jstr "")))))

/-- `addrev_commission_aggregate` (app.py:260, job.py:398). `tokenSet` is whether
ADDREV_TOKEN is configured (`_addrev_headers` raises when it is not); `fetch` is
the outcome of the `/transactions` GET after sub-ref filtering: an HTTP error
propagates out of `addrev_get` via `raise_for_status`, so this function is
`Except`-valued — it raises rather than returning a blank snapshot. -/
def addrev_commission_aggregate (tokenSet : Bool) (fetch : Except String (List Row))
    (defaultCcy : String) (targetCcy : Option String) (fxResp : FxResp) :
    Except String Snapshot :=
  if tokenSet = false then .error "ADDREV_TOKEN is not set"
  else
    match fetch with
    | .error e => .error e
    | .ok rows =>
        let src := match rows with
          | [] => defaultCcy
          | r :: _ => addrevDetectCcy defaultCcy r
        let tgt := (match targetCcy with
          | some t => if t = "" then defaultCcy else t
          | none => defaultCcy)
        let fx := if src ≠ tgt then get_fx_rate src tgt fxResp else 1
        let confirmed := ((rows.filter
          (fun r => ["approved", "confirmed", "paid"].contains (addrevStatusLower r))).map
            addrevAmount).sum
        let pending := ((rows.filter
          (fun r => ["pending", "awaiting"].contains (addrevStatusLower r))).map
            addrevAmount).sum
        .ok
          { total_comm := (confirmed + pending) * fx
            confirmed_comm := confirmed * fx
            pending_comm := pending * fx
            raw := rows
            meta_reason := none }

/-! ### Impact (`impact_commission_aggregate`, app.py:339, job.py:464) -/

/-- The Impact sub-id match over `SubId1/2/3`, `SharedId`, `PromoCode`. -/
def impactMatch (want : List String) (contains : Bool) (a : Row) : Bool :=
  if want = [] then true
  else
    let vals := ["SubId1", "SubId2", "SubId3", "SharedId", "PromoCode"].filterMap
      (fun k => if pyTruthy (rget a k) then some (pyStr (rget a k)) else none)
    if vals = [] then false
    else if contains then
      let low := pyLower (String.mk (List.intercalate [' '] (vals.map String.toList)))
      want.any (fun w => strContains low w.toLower)
    else
      want.any (fun w => vals.any (fun v => pyLower v == pyLower w))

/-- The Impact source-currency probe: first of the first three filtered actions
with a truthy `Currency`, upper-cased, else the default (the loop breaks). -/
def impactSrcCcy (dflt : String) (l : List Row) : String :=
  match (l.take 3).find? (fun a => pyTruthy (rget a "Currency")) with
  | some a => pyUpper (pyStr (rget a "Currency"))
  | none => dflt

/-- `Payout or DeltaPayout or 0.0`, then numeric coercion — note the `or` runs on
the raw values, so a `"0.00"` string is truthy and wins. -/
def impactPayout (a : Row) : ℚ :=
  to_num (pyOr (rget a "Payout") (pyOr (rget a "DeltaPayout") (some (.jnum 0))))

/-- `str(a.get("State") or "").upper()`. -/
def impactStateUpper (a : Row) : String :=
  pyUpper (pyStr (pyOr (rget a "State") (some (.jstr ""))))

/-- `impact_commission_aggregate` (app.py:339). When credentials are missing it
returns the blank snapshot with `meta.reason = "impact_not_configured"`; when
configured, a transport failure of the Actions GET propagates
(`raise_for_status` inside `impact_get`), hence the `Except`. `fetch` carries
the accumulated pages of raw actions. -/
def impact_commission_aggregate (configured : Bool) (fetch : Except String (List Row))
    (subrefs : List String) (contains : Bool) (defaultCcy : String)
    (targetCcy : Option String) (fxResp : FxResp) : Except String Snapshot :=
  if configured = false then
    .ok { total_comm := 0, confirmed_comm := 0, pending_comm := 0, raw := [],
          meta_reason := some "impact_not_configured" }
  else
    match fetch with
    | .error e => .error e
    | .ok allActions =>
        let want := (subrefs.filter (fun s => pyStrip s ≠ "")).map pyStrip
        let filtered := allActions.filter (impactMatch want contains)
        let src := impactSrcCcy defaultCcy filtered
        let tgt := (match targetCcy with
          | some t => if t = "" then defaultCcy else t
          | none => defaultCcy)
        let fx := if src ≠ tgt then get_fx_rate src tgt fxResp else 1
        let confirmed := ((filtered.filter (fun a => impactStateUpper a == "APPROVED")).map
          impactPayout).sum
        let pending := ((filtered.filter (fun a => impactStateUpper a == "PENDING")).map
          impactPayout).sum
        .ok
          { total_comm := (confirmed + pending) * fx
            confirmed_comm := confirmed * fx
            pending_comm := pending * fx
            raw := filtered
            meta_reason := none }

/-! ### Partnerize stub and Dognet (`partnerize_commission_aggregate`,
app.py:493; `dognet_commission_aggregate`, app.py:2365) -/

/-- `partnerize_commission_aggregate` (app.py:493): a stub returning all zeros
with a reason. -/
def partnerize_commission_aggregate : Snapshot :=
  { total_comm := 0, confirmed_comm := 0, pending_comm := 0, raw := [],
    meta_reason := some "partnerize_commission_not_implemented" }

/-- `_dognet_amount` (app.py:2277): same probe pattern as Addrevenue over the
Dognet candidate keys. -/
def dognetAmount (r : Row) : ℚ :=
  probeFirstParse r
    ["publisher_commission", "commission", "commission_amount", "commission_value",
     "payout", "amount", "value", "price_commission"]

/-- `_dognet_status` (app.py:2297): `str(rstatus or status or "").strip().upper()`. -/
def dognetStatus (r : Row) : String :=
  pyUpper (pyStrip (pyStr (pyOr (rget r "rstatus") (pyOr (rget r "status") (some (.jstr ""))))))

/-- `dognet_commission_aggregate` (app.py:2365). `rows` is what the scrolled
`raw-transactions/filter` returned after sub-ref filtering; `authCurrency` is
`auth.get("currency")` of the login response. -/
def dognet_commission_aggregate (configured : Bool) (rows : List Row)
    (authCurrency : Option String) (targetCcy : Option String) (fxResp : FxResp) :
    Snapshot :=
  if configured = false then
    { total_comm := 0, confirmed_comm := 0, pending_comm := 0, raw := [],
      meta_reason := none }
  else
    let src := (match authCurrency with
      | some c => if c = "" then "EUR" else c
      | none => "EUR")
    let tgt := (match targetCcy with
      | some t => if t = "" then src else t
      | none => src)
    let fx := if src ≠ tgt then get_fx_rate src tgt fxResp else 1
    let confirmed := ((rows.filter (fun r => dognetStatus r == "A")).map dognetAmount).sum
    let pending := ((rows.filter (fun r => dognetStatus r == "P")).map dognetAmount).sum
    { total_comm := (confirmed + pending) * fx
      confirmed_comm := confirmed * fx
      pending_comm := pending * fx
      raw := rows
      meta_reason := none }

/-! ### The dashboard caller (app.py:2539, 2583-2685) -/

/-- `_blank_metrics` (app.py:2539, job.py:135): all zeros, empty raw, empty meta
— in particular no `reason`. -/
def blank_metrics : Snapshot :=
  { total_comm := 0, confirmed_comm := 0, pending_comm := 0, raw := [],
    meta_reason := none }

/-- The caller pattern around every aggregation call (app.py:2585-2638,
job.py:593-639): the raised exception is caught and the blank snapshot is
substituted. -/
def callerMetrics (x : Except String Snapshot) : Snapshot :=
  match x with
  | .ok m => m
  | .error _ => blank_metrics

/-! ### Alert configuration and email dispatch (app.py:118-133, 1691-1731) -/

/-- The injected alert/SMTP configuration (env values; a missing string value is
the empty string, which is falsy under `all(needed)`). `cooldownMin` is
ALERT_COOLDOWN_MIN, `smtpPort` the int-parsed SMTP_PORT. -/
structure AlertCfg where
  alertsEnabled : Bool
  alertOnNew : Bool
  alertOnRemoved : Bool
  alertOnClosed : Bool
  alertOnFeedFailure : Bool
  cooldownMin : Int
  smtpHost : String
  smtpPort : Int
  smtpUser : String
  smtpPass : String
  alertTo : String
  alertFrom : String
deriving DecidableEq

/-- `all([SMTP_HOST, SMTP_PORT, SMTP_USER, SMTP_PASS, ALERT_TO, ALERT_FROM])`. -/
def smtpConfigured (c : AlertCfg) : Bool :=
  c.smtpHost != "" && c.smtpPort != 0 && c.smtpUser != "" && c.smtpPass != "" &&
    c.alertTo != "" && c.alertFrom != ""

/-- `alert_allowed` (app.py:1713). -/
def alert_allowed (c : AlertCfg) (kind : String) : Bool :=
  c.alertsEnabled &&
    ((kind == "new" && c.alertOnNew) ||
     (kind == "removed" && c.alertOnRemoved) ||
     (kind == "closed" && c.alertOnClosed) ||
     (kind == "feed_failure" && c.alertOnFeedFailure))

/-- Outcome of one SMTP delivery attempt (connect + starttls + login + send). -/
inductive SmtpResult where
  | success
  | authError (e : String)
  | sendError (e : String)
deriving DecidableEq

/-- `send_email` (app.py:1691). The first component is the returned
`(ok, info)` pair; the second records whether a delivery attempt reached the
transport at all. Every path returns — nothing escapes. -/
def send_email (cfg : AlertCfg) (tr : SmtpResult) : (Bool × String) × Bool :=
  if cfg.alertsEnabled = false then ((false, "alerts disabled"), false)
  else if smtpConfigured cfg = false then ((false, "SMTP not fully configured"), false)
  else
    match tr with
    | .success => ((true, "sent"), true)
    | .authError e => ((false, "auth failed: " ++ e), true)
    | .sendError e => ((false, "send failed: " ++ e), true)

/-! ### Programme state store, alert log, and `sync_and_alert` (app.py:137-167,
1723-1813) -/

/-- One row of the `programmes` table (PRIMARY KEY (advertiser_id, country)). -/
structure StoredRec where
  advertiser_id : Int
  name : String
  status : String
  relationship : String
  country : String
  first_seen : Int
  last_seen : Int
deriving DecidableEq

/-- One row of the append-only `alert_log` table. -/
structure LogEntry where
  event : String
  country : String
  advertiser_id : Option Int
  name : Option String
  details : String
  email_sent : Bool
  email_info : String
deriving DecidableEq

/-- The mutable state `sync_and_alert` touches: the programmes table, the alert
log, the count of `send_email` calls and of actual delivery attempts, and the
process-lifetime FEED_ALERT_STATE map (country → last feed-failure alert time). -/
structure SysState where
  store : List StoredRec
  alertLog : List LogEntry
  emailCalls : Nat
  attempts : Nat
  feedAlert : List (String × Int)
deriving DecidableEq

/-- The PRIMARY KEY (advertiser_id, country) invariant of the programmes table. -/
def keysUnique (store : List StoredRec) : Prop :=
  store.Pairwise (fun a b => a.advertiser_id ≠ b.advertiser_id ∨ a.country ≠ b.country)

/-- Does a record match the key (pid, cc)? -/
def recKey (pid : Int) (cc : String) (r : StoredRec) : Bool :=
  r.advertiser_id == pid && r.country == cc

/-- The row currently stored under (pid, cc). -/
def findRec (store : List StoredRec) (pid : Int) (cc : String) : Option StoredRec :=
  store.find? (recKey pid cc)

/-- `INSERT OR REPLACE INTO programmes` keyed by (advertiser_id, country). -/
def insertOrReplace (store : List StoredRec) (r : StoredRec) : List StoredRec :=
  if store.any (recKey r.advertiser_id r.country) then
    store.map (fun x => if recKey r.advertiser_id r.country x then r else x)
  else store ++ [r]

/-- `DELETE FROM programmes WHERE advertiser_id=? AND country=?`. -/
def deleteRec (store : List StoredRec) (pid : Int) (cc : String) : List StoredRec :=
  store.filter (fun x => !(recKey pid cc x))

/-- The name/status/relationship triple the diff compares. -/
structure SeenVal where
  name : String
  status : String
  relationship : String
deriving DecidableEq

/-- `UPDATE programmes SET name=?, status=?, relationship=?, last_seen=? WHERE
advertiser_id=? AND country=?` — first_seen is untouched. -/
def updFn (v : SeenVal) (now : Int) (r : StoredRec) : StoredRec :=
  { r with name := v.name, status := v.status, relationship := v.relationship,
           last_seen := now }

/-- Update-in-place of the stored row under (pid, cc). -/
def updateRec (store : List StoredRec) (pid : Int) (cc : String) (v : SeenVal)
    (now : Int) : List StoredRec :=
  store.map (fun x => if recKey pid cc x then updFn v now x else x)

/-- One fetched programme row: only the fields `sync_and_alert` probes. AWIN ids
are integers; an absent or null field is `none`. -/
structure ProgRow where
  advertiserId : Option Int
  programId : Option Int
  idField : Option Int
  advertiserName : Option String
  programName : Option String
  nameField : Option String
  programmeStatus : Option String
  statusField : Option String
  relationship : Option String
  relationshipStatus : Option String
deriving DecidableEq

/-- Python `a or b` on optional ints (0 is falsy). -/
def pyOrInt (a b : Option Int) : Option Int :=
  match a with
  | some v => if v = 0 then b else some v
  | none => b

/-- Python `a or b` on optional strings ("" is falsy). -/
def pyOrStr (a b : Option String) : Option String :=
  match a with
  | some v => if v = "" then b else some v
  | none => b

/-- The trailing string literal of an `or`-chain: the default when the chain is
falsy. -/
def pyStrFinal (a : Option String) (d : String) : String :=
  match a with
  | some v => if v = "" then d else v
  | none => d

/-- `p.get("advertiserId") or p.get("programId") or p.get("id")`; the row is
skipped when this is `None` (app.py:1754). -/
def probeAdvId (p : ProgRow) : Option Int :=
  pyOrInt p.advertiserId (pyOrInt p.programId p.idField)

/-- `advertiserName or programName or name or "(unknown)"`. -/
def rowName (p : ProgRow) : String :=
  pyStrFinal (pyOrStr p.advertiserName (pyOrStr p.programName p.nameField)) "(unknown)"

/-- `programmeStatus or status or ""`. -/
def rowStatus (p : ProgRow) : String :=
  pyStrFinal (pyOrStr p.programmeStatus p.statusField) ""

/-- `relationship or relationshipStatus or ""`. -/
def rowRel (p : ProgRow) : String :=
  pyStrFinal (pyOrStr p.relationship p.relationshipStatus) ""

/-- The dict value stored under `seen[int(adv_id)]`. -/
def seenValOf (p : ProgRow) : SeenVal :=
  ⟨rowName p, rowStatus p, rowRel p⟩

/-- Python dict assignment: overwrite in place when the key exists, else append. -/
def assocSet (l : List (Int × SeenVal)) (k : Int) (v : SeenVal) : List (Int × SeenVal) :=
  if l.any (fun kv => kv.1 == k) then
    l.map (fun kv => if kv.1 == k then (k, v) else kv)
  else l ++ [(k, v)]

/-- The `seen` dict of `sync_and_alert` (app.py:1752-1761), in insertion order. -/
def buildSeen (seq : List ProgRow) : List (Int × SeenVal) :=
  seq.foldl
    (fun acc p =>
      match probeAdvId p with
      | none => acc
      | some pid => assocSet acc pid (seenValOf p)) []

/-- `seen.get(pid)`. -/
def lookupSeen (l : List (Int × SeenVal)) (k : Int) : Option SeenVal :=
  (l.find? (fun kv => kv.1 == k)).map (fun kv => kv.2)

/-- The `previous` dict (app.py:1765-1769): the stored rows of the country, as
(advertiser_id, name/status/relationship). The PRIMARY KEY makes its keys
unique, so the association list is the dict. -/
def previousOf (store : List StoredRec) (cc : String) : List (Int × SeenVal) :=
  (store.filter (fun r => r.country == cc)).map
    (fun r => (r.advertiser_id, ⟨r.name, r.status, r.relationship⟩))

/-- `send_email` followed by `log_alert` (app.py:1723): the log row is written
whatever the email outcome was. The SMTP transport outcome of the n-th
`send_email` call of the process is `oracle n`. -/
def doAlert (cfg : AlertCfg) (oracle : Nat → SmtpResult) (event cc : String)
    (pid : Option Int) (nm : Option String) (details : String) (st : SysState) :
    SysState :=
  let r := send_email cfg (oracle st.emailCalls)
  { st with
    emailCalls := st.emailCalls + 1
    attempts := st.attempts + (if r.2 then 1 else 0)
    alertLog := st.alertLog ++ [⟨event, cc, pid, nm, details, r.1.1, r.1.2⟩] }

/-- The row the "new" loop inserts: `first_seen = last_seen = now`. -/
def newRecOf (kv : Int × SeenVal) (cc : String) (now : Int) : StoredRec :=
  ⟨kv.1, kv.2.name, kv.2.status, kv.2.relationship, cc, now, now⟩

/-- The "new" loop body (app.py:1772-1785). `prevKeys` is fixed before the loop. -/
def newStep (cfg : AlertCfg) (oracle : Nat → SmtpResult) (cc : String) (now : Int)
    (prevKeys : List Int) (st : SysState) (kv : Int × SeenVal) : SysState :=
  if prevKeys.contains kv.1 then st
  else
    let st1 := { st with store := insertOrReplace st.store (newRecOf kv cc now) }
    if alert_allowed cfg "new" then
      doAlert cfg oracle "new" cc (some kv.1) (some kv.2.name)
        ("status=" ++ kv.2.status ++ " rel=" ++ kv.2.relationship) st1
    else st1

/-- `closed_like` status or rejected/suspended relationship (app.py:1788, 1806). -/
def closedLike (v : SeenVal) : Bool :=
  ["closed", "deactivated", "suspended"].contains (pyLower v.status) ||
    ["rejected", "suspended"].contains (pyLower v.relationship)

/-- The "removed / changed" loop body (app.py:1789-1812), iterating over the
pre-loop `previous` dict. -/
def oldStep (cfg : AlertCfg) (oracle : Nat → SmtpResult) (cc : String) (now : Int)
    (seen : List (Int × SeenVal)) (st : SysState) (kv : Int × SeenVal) : SysState :=
  match lookupSeen seen kv.1 with
  | none =>
      let st1 := { st with store := deleteRec st.store kv.1 cc }
      if alert_allowed cfg "removed" then
        doAlert cfg oracle "removed" cc (some kv.1) (some kv.2.name)
          ("prev_status=" ++ kv.2.status ++ " prev_rel=" ++ kv.2.relationship) st1
      else st1
  | some v =>
      if v.status ≠ kv.2.status ∨ v.relationship ≠ kv.2.relationship then
        let st1 := { st with store := updateRec st.store kv.1 cc v now }
        if closedLike v && alert_allowed cfg "closed" then
          doAlert cfg oracle "closed" cc (some kv.1) (some v.name)
            ("old=" ++ kv.2.status ++ "/" ++ kv.2.relationship ++
             " new=" ++ v.status ++ "/" ++ v.relationship) st1
        else st1
      else st

/-- `FEED_ALERT_STATE.get(country_code)`. -/
def feedAlertGet (l : List (String × Int)) (cc : String) : Option Int :=
  (l.find? (fun kv => kv.1 == cc)).map (fun kv => kv.2)

/-- `FEED_ALERT_STATE[country_code] = ts`. -/
def feedAlertSet (l : List (String × Int)) (cc : String) (t : Int) : List (String × Int) :=
  if l.any (fun kv => kv.1 == cc) then
    l.map (fun kv => if kv.1 == cc then (cc, t) else kv)
  else l ++ [(cc, t)]

/-- What `get_programmes(country_code)` produced: the programme list, or the
exception message when the fetch raised. -/
inductive FetchResult where
  | ok (rows : List ProgRow)
  | err (msg : String)
deriving DecidableEq

/-- `sync_and_alert` (app.py:1734-1813). `now` is the single timestamp taken at
entry (the code stamps `utcnow` per event; the claims never depend on the tiny
differences, so one timestamp stands for the cycle). A failed fetch takes the
feed-failure path; a successful fetch builds `seen`, loads `previous` once, runs
the new-loop, then the removed/changed loop over the pre-loop `previous`. -/
def syncAndAlert (cfg : AlertCfg) (oracle : Nat → SmtpResult) (cc : String)
    (fetch : FetchResult) (now : Int) (st : SysState) : SysState :=
  match fetch with
  | .err e =>
      if alert_allowed cfg "feed_failure" then
        match feedAlertGet st.feedAlert cc with
        | none =>
            let st1 := doAlert cfg oracle "feed_failure" cc none none ("error=" ++ e) st
            { st1 with feedAlert := feedAlertSet st1.feedAlert cc now }
        | some last =>
            if now - last ≥ cfg.cooldownMin * 60 then
              let st1 := doAlert cfg oracle "feed_failure" cc none none ("error=" ++ e) st
              { st1 with feedAlert := feedAlertSet st1.feedAlert cc now }
            else st
      else st
  | .ok rows =>
      let seen := buildSeen rows
      let previous := previousOf st.store cc
      let prevKeys := previous.map (fun kv => kv.1)
      let st1 := seen.foldl (newStep cfg oracle cc now prevKeys) st
      previous.foldl (oldStep cfg oracle cc now seen) st1

/-! ### Spec-side probe definition (for the refinement claim C3) -/

/-- The AWIN transactions amount probe order (app.py:2010-2012). -/
def awinTxKeys : List String :=
  ["commissionAmount", "commission", "publisherCommission"]

/-- Modelled from the spec (§4.2, P8): the monetary-amount extraction returns
the numeric value of the first candidate field that is present and non-null,
independent of the numeric value the field holds. -/
def specFirstPresentAmount (keys : List String) (t : Row) : Option ℚ :=
  (keys.find? (fun k => (rget t k).isSome)).map (fun k => to_num (rget t k))

/-- A data-driven description of what the AWIN chain actually does: the first
candidate whose parsed numeric value is non-zero wins; zero (or an absent,
null, or unparseable field, all of which `to_num` sends to zero) falls through. -/
def probeFirstNonZero (t : Row) : List String → ℚ
  | [] => 0
  | k :: ks => if to_num (rget t k) ≠ 0 then to_num (rget t k) else probeFirstNonZero t ks

/-! ## Claim theorems -/

/-- Shared arithmetic core of the sum invariant: a snapshot whose total is
`(confirmed + pending) * fx` with buckets `confirmed * fx` and `pending * fx`
satisfies it exactly. -/
theorem sumInvariant_of_product (c p fx : ℚ) (raw : List Row) (mr : Option String) :
    sumInvariant ⟨(c + p) * fx, c * fx, p * fx, raw, mr⟩ := by
  simp only [sumInvariant]
  have h0 : (c + p) * fx - (c * fx + p * fx) = 0 := by ring
  rw [h0]
  norm_num

/-- C2 (counterexample): the AWIN advertiser-performance aggregation sums the
rows' own `totalComm` column; a report row with `totalComm = 42` but
`confirmedComm = pendingComm = 10` yields a snapshot violating
`abs(total - (confirmed + pending)) < 1e-6`. -/
theorem C2_sum_invariant_counterexample :
    (get_earnings [[("confirmedComm", JVal.jnum 10), ("pendingComm", JVal.jnum 10),
        ("totalComm", JVal.jnum 42)]] "EUR" FxResp.fail).total_comm = 42 ∧
    (get_earnings [[("confirmedComm", JVal.jnum 10), ("pendingComm", JVal.jnum 10),
        ("totalComm", JVal.jnum 42)]] "EUR" FxResp.fail).confirmed_comm = 10 ∧
    (get_earnings [[("confirmedComm", JVal.jnum 10), ("pendingComm", JVal.jnum 10),
        ("totalComm", JVal.jnum 42)]] "EUR" FxResp.fail).pending_comm = 10 ∧
    ¬ sumInvariant (get_earnings [[("confirmedComm", JVal.jnum 10),
        ("pendingComm", JVal.jnum 10), ("totalComm", JVal.jnum 42)]] "EUR" FxResp.fail) := by
  refine ⟨?_, ?_, ?_, ?_⟩
  · simp [get_earnings, earnConfSum, earnPendSum, earnTotalSum, earnSrcCcy,
      get_fx_rate, to_num, rget, pyUpper, pyStr, pyOr, pyTruthy]
  · simp [get_earnings, earnConfSum, earnPendSum, earnTotalSum, earnSrcCcy,
      get_fx_rate, to_num, rget, pyUpper, pyStr, pyOr, pyTruthy]
  · simp [get_earnings, earnConfSum, earnPendSum, earnTotalSum, earnSrcCcy,
      get_fx_rate, to_num, rget, pyUpper, pyStr, pyOr, pyTruthy]
  · simp [sumInvariant, get_earnings, earnConfSum, earnPendSum, earnTotalSum, earnSrcCcy,
      get_fx_rate, to_num, rget, pyUpper, pyStr, pyOr, pyTruthy]
    norm_num

/-- C2 (amended): the sum invariant holds exactly for the AWIN transactions,
Addrevenue, Impact, Partnerize and Dognet aggregations, whose total is computed
as `(confirmed + pending) * fx`; for the AWIN advertiser-report `get_earnings`
it holds only when the summed `totalComm` of the rows is zero (the fallback
`total = confirmed + pending` then applies) or already equals the summed
`confirmedComm + pendingComm`. -/
theorem C2_sum_invariant_amended :
    (∀ so eo cr ct sf rows pc fx s,
      get_commission_from_transactions so eo cr ct sf rows pc fx = .ok s → sumInvariant s) ∧
    (∀ tok fetch d t fx s,
      addrev_commission_aggregate tok fetch d t fx = .ok s → sumInvariant s) ∧
    (∀ cfg fetch sub ct d t fx s,
      impact_commission_aggregate cfg fetch sub ct d t fx = .ok s → sumInvariant s) ∧
    sumInvariant partnerize_commission_aggregate ∧
    (∀ cfg rows ac t fx, sumInvariant (dognet_commission_aggregate cfg rows ac t fx)) ∧
    (∀ rows pc fx,
      earnTotalSum rows = 0 ∨ earnTotalSum rows = earnConfSum rows + earnPendSum rows →
      sumInvariant (get_earnings rows pc fx)) := by
  refine ⟨?_, ?_, ?_, ?_, ?_, ?_⟩
  · intro so eo cr ct sf rows pc fx s h
    unfold get_commission_from_transactions at h
    split at h
    · exact absurd h (by simp)
    · rw [Except.ok.injEq] at h
      rw [← h]
      exact sumInvariant_of_product _ _ _ _ _
  · intro tok fetch d t fx s h
    unfold addrev_commission_aggregate at h
    split at h
    · exact absurd h (by simp)
    · match fetch with
      | .error e => exact absurd h (by simp)
      | .ok rows =>
          simp only [Except.ok.injEq] at h
          rw [← h]
          exact sumInvariant_of_product _ _ _ _ _
  · intro cfg fetch sub ct d t fx s h
    unfold impact_commission_aggregate at h
    split at h
    · rw [Except.ok.injEq] at h
      rw [← h]
      simp [sumInvariant]
    · match fetch with
      | .error e => exact absurd h (by simp)
      | .ok rows =>
          simp only [Except.ok.injEq] at h
          rw [← h]
          exact sumInvariant_of_product _ _ _ _ _
  · simp [partnerize_commission_aggregate, sumInvariant]
  · intro cfg rows ac t fx
    unfold dognet_commission_aggregate
    split
    · simp [sumInvariant]
    · exact sumInvariant_of_product _ _ _ _ _
  · intro rows pc fx h
    unfold get_earnings
    have htot : (if earnTotalSum rows = 0 ∧ (earnConfSum rows ≠ 0 ∨ earnPendSum rows ≠ 0)
        then earnConfSum rows + earnPendSum rows else earnTotalSum rows) =
        earnConfSum rows + earnPendSum rows := by
      rcases h with h0 | hsum
      · by_cases hc : earnConfSum rows ≠ 0 ∨ earnPendSum rows ≠ 0
        · rw [if_pos ⟨h0, hc⟩]
        · rw [if_neg (by tauto)]
          push_neg at hc
          rw [h0, hc.1, hc.2]
          norm_num
      · split
        · rfl
        · exact hsum
    dsimp only
    rw [htot]
    exact sumInvariant_of_product _ _ _ _ _

/-- C2 (witness for the amended theorem): the conditional `get_earnings` clause
applied to the empty report (summed `totalComm` is zero). -/
theorem C2_sum_invariant_witness :
    sumInvariant (get_earnings [] "EUR" FxResp.fail) :=
  C2_sum_invariant_amended.2.2.2.2.2 [] "EUR" FxResp.fail
    (Or.inl (by simp [earnTotalSum]))

/-- C3 (counterexample): in a row carrying `commission: "0.00"` (present,
non-null) and `publisherCommission: "20.00"`, the AWIN extraction returns 20 —
`to_num` sends `"0.00"` to a falsy 0.0 and the Python `or`-chain falls
through — while the claimed first-present-non-null probe yields 0. -/
theorem C3_probe_order_counterexample :
    awinTxAmount [("commission", JVal.jstr "0.00"), ("publisherCommission", JVal.jstr "20.00")]
      = 20 ∧
    specFirstPresentAmount awinTxKeys
      [("commission", JVal.jstr "0.00"), ("publisherCommission", JVal.jstr "20.00")]
      = some 0 := by
  constructor
  · simp [awinTxAmount, pyOrQ, to_num, rget, parsePyFloat, parseUnsignedDecimal, digitsToNat,
      isPySpace, List.filter_cons, List.dropWhile_cons, List.splitOn, List.splitOnP,
      List.splitOnP.go]
  · simp [specFirstPresentAmount, awinTxKeys, to_num, rget, parsePyFloat, parseUnsignedDecimal,
      digitsToNat, isPySpace, List.filter_cons, List.dropWhile_cons, List.splitOn,
      List.splitOnP, List.splitOnP.go]

/-- C3 (amended): the AWIN transactions extraction probes
`commissionAmount`, `commission`, `publisherCommission` in order but takes the
first candidate whose parsed value is non-zero (a present field parsing to zero
— or failing to parse — falls through); the Addrevenue extraction takes the
first present, non-null, parseable candidate, including zero. On the claim's
row carrying `commission: "10.00"` and `publisherCommission: "20.00"` both
networks contribute 10.00, `commission` being first in both probe orders. -/
theorem C3_probe_order_amended :
    (∀ t : Row, awinTxAmount t = probeFirstNonZero t awinTxKeys) ∧
    awinTxAmount [("commission", JVal.jstr "10.00"), ("publisherCommission", JVal.jstr "20.00")]
      = 10 ∧
    addrevAmount [("commission", JVal.jstr "10.00"), ("publisherCommission", JVal.jstr "20.00")]
      = 10 ∧
    addrevAmount [("commission", JVal.jstr "0.00"), ("publisherCommission", JVal.jstr "20.00")]
      = 0 := by
  refine ⟨?_, ?_, ?_, ?_⟩
  · intro t
    simp only [awinTxAmount, probeFirstNonZero, awinTxKeys, pyOrQ]
    by_cases h1 : to_num (rget t "commissionAmount") = 0 <;>
      by_cases h2 : to_num (rget t "commission") = 0 <;>
        by_cases h3 : to_num (rget t "publisherCommission") = 0 <;>
          simp [h1, h2, h3]
  · simp [awinTxAmount, pyOrQ, to_num, rget, parsePyFloat, parseUnsignedDecimal, digitsToNat,
      isPySpace, List.filter_cons, List.dropWhile_cons, List.splitOn, List.splitOnP,
      List.splitOnP.go]
  · simp [addrevAmount, addrevAmountKeys, probeFirstParse, to_num, rget, parsePyFloat,
      parseUnsignedDecimal, digitsToNat, isPySpace, List.filter_cons, List.dropWhile_cons,
      List.splitOn, List.splitOnP, List.splitOnP.go]
  · simp [addrevAmount, addrevAmountKeys, probeFirstParse, to_num, rget, parsePyFloat,
      parseUnsignedDecimal, digitsToNat, isPySpace, List.filter_cons, List.dropWhile_cons,
      List.splitOn, List.splitOnP, List.splitOnP.go]

/-- C4 (counterexample): with ADDREV_TOKEN configured but the transactions GET
failing, the Addrevenue aggregation propagates the exception
(`raise_for_status`) instead of returning a blank snapshot. -/
theorem C4_blank_snapshot_counterexample :
    addrev_commission_aggregate true (Except.error "HTTPError: 503 Server Error")
      "EUR" none FxResp.fail = Except.error "HTTPError: 503 Server Error" := rfl

/-- C4 (amended): on transport/auth failure the aggregation functions raise and
it is the dashboard/job caller that catches the exception and substitutes an
all-zero blank snapshot whose meta carries no reason; blank snapshots are
returned directly only for missing configuration (Impact, with
`meta.reason = "impact_not_configured"`; Addrevenue instead raises a
RuntimeError when its token is missing). -/
theorem C4_blank_snapshot_amended :
    (∀ fetch d t fx, addrev_commission_aggregate false fetch d t fx =
      Except.error "ADDREV_TOKEN is not set") ∧
    (∀ e d t fx, addrev_commission_aggregate true (Except.error e) d t fx = Except.error e) ∧
    (∀ e sub ct d t fx,
      impact_commission_aggregate true (Except.error e) sub ct d t fx = Except.error e) ∧
    (∀ fetch sub ct d t fx, impact_commission_aggregate false fetch sub ct d t fx =
      Except.ok ⟨0, 0, 0, [], some "impact_not_configured"⟩) ∧
    (∀ e, callerMetrics (Except.error e) = blank_metrics) ∧
    blank_metrics.meta_reason = none ∧ blank_metrics.total_comm = 0 ∧
    blank_metrics.confirmed_comm = 0 ∧ blank_metrics.pending_comm = 0 ∧
    blank_metrics.raw = [] := by
  refine ⟨fun fetch d t fx => rfl, fun e d t fx => rfl, fun e sub ct d t fx => rfl,
    fun fetch sub ct d t fx => rfl, fun e => rfl, rfl, rfl, rfl, rfl, rfl⟩

/-- C6 (counterexample): a negative rate in the FX response is returned as-is —
`float(data.get("result") or 1.0)` only replaces a falsy (zero/absent) result,
so the claimed non-positive-rate fallback to 1.0 fails. -/
theorem C6_fx_fallback_counterexample :
    get_fx_rate "EUR" "SEK" (FxResp.ok (some (JVal.jnum (-2)))) = -2 ∧
    ((-2 : ℚ) ≠ 1) := by
  constructor
  · simp [get_fx_rate, pyUpper]
  · norm_num

/-- C6 (amended): `get_fx_rate` returns 1.0 when either code is blank or they
match case-insensitively, and on network failure, a missing result, a zero
numeric result, or an unparseable string result; but a non-zero numeric result
— including a negative one — is returned as-is. Consequently
`convert(100, "EUR", "EUR")` is 100 for every response and
`convert(100, "EUR", "SEK")` under FX failure is 100. -/
theorem C6_fx_fallback_amended :
    (∀ base target resp, base = "" ∨ target = "" ∨ pyUpper base = pyUpper target →
      get_fx_rate base target resp = 1) ∧
    (∀ base target, get_fx_rate base target FxResp.fail = 1) ∧
    (∀ base target, get_fx_rate base target (FxResp.ok none) = 1) ∧
    (∀ base target, get_fx_rate base target (FxResp.ok (some (JVal.jnum 0))) = 1) ∧
    (∀ base target s, parsePyFloat s = none →
      get_fx_rate base target (FxResp.ok (some (JVal.jstr s))) = 1) ∧
    (∀ base target q, q ≠ 0 → ¬(base = "" ∨ target = "" ∨ pyUpper base = pyUpper target) →
      get_fx_rate base target (FxResp.ok (some (JVal.jnum q))) = q) ∧
    (∀ resp, convert 100 "EUR" "EUR" resp = 100) ∧
    convert 100 "EUR" "SEK" FxResp.fail = 100 := by
  refine ⟨?_, ?_, ?_, ?_, ?_, ?_, ?_, ?_⟩
  · intro base target resp h
    simp [get_fx_rate, h]
  · intro base target
    unfold get_fx_rate
    split <;> rfl
  · intro base target
    unfold get_fx_rate
    split <;> rfl
  · intro base target
    unfold get_fx_rate
    split <;> simp
  · intro base target s h
    unfold get_fx_rate
    split
    · rfl
    · by_cases hs : s = "" <;> simp [hs, h]
  · intro base target q hq h
    simp [get_fx_rate, h, hq]
  · intro resp
    simp [convert, get_fx_rate, pyUpper]
  · simp [convert, get_fx_rate, pyUpper]

/-- C6 (witness for the amended theorem): the equal-codes clause at
("EUR", "EUR") with a failing FX service. -/
theorem C6_fx_fallback_witness :
    get_fx_rate "EUR" "EUR" FxResp.fail = 1 :=
  C6_fx_fallback_amended.1 "EUR" "EUR" FxResp.fail (Or.inr (Or.inr rfl))

/-- C7 (confirmed): the transactions aggregation raises its window error exactly
when the inclusive window length `endOrd - startOrd + 1` exceeds 31 days, and
never for a window of at most 31 inclusive days. -/
theorem C7_window_limit (so eo : ℤ) (cr : List String) (ct : Bool) (sf : Option String)
    (rows : List Row) (pc : String) (fx : FxResp) (h : so ≤ eo) :
    (∃ msg, get_commission_from_transactions so eo cr ct sf rows pc fx = .error msg) ↔
      31 < eo - so + 1 := by
  unfold get_commission_from_transactions
  split
  · rename_i hgt
    exact ⟨fun _ => by omega, fun _ => ⟨_, rfl⟩⟩
  · rename_i hle
    constructor
    · rintro ⟨msg, hmsg⟩
      exact absurd hmsg (by simp)
    · intro hlen
      omega

/-- C7 (witness): a 41-day window raises; the theorem instantiated at days 0
and 40. -/
theorem C7_window_limit_witness :
    (∃ msg, get_commission_from_transactions 0 40 [] false none [] "EUR" FxResp.fail
      = .error msg) ↔ 31 < (40 : ℤ) - 0 + 1 :=
  C7_window_limit 0 40 [] false none [] "EUR" FxResp.fail (by norm_num)

/-- C8 (confirmed): `send_email` is total; globally disabled alerts and
incomplete SMTP configuration return `(False, reason)` without reaching the
transport, and otherwise exactly one delivery attempt is made, returning
`(True, "sent")` on success and `(False, description)` on auth or transport
failure. -/
theorem C8_send_email_total (cfg : AlertCfg) (tr : SmtpResult) :
    (cfg.alertsEnabled = false →
      send_email cfg tr = ((false, "alerts disabled"), false)) ∧
    (cfg.alertsEnabled = true → smtpConfigured cfg = false →
      send_email cfg tr = ((false, "SMTP not fully configured"), false)) ∧
    (cfg.alertsEnabled = true → smtpConfigured cfg = true →
      (send_email cfg tr).2 = true ∧
      (send_email cfg tr).1 = match tr with
        | .success => (true, "sent")
        | .authError e => (false, "auth failed: " ++ e)
        | .sendError e => (false, "send failed: " ++ e)) := by
  refine ⟨fun hdis => by simp [send_email, hdis], fun hen hcfg => by simp [send_email, hen, hcfg],
    fun hen hcfg => ?_⟩
  cases tr <;> simp [send_email, hen, hcfg]

/-- C8 (witness): a fully configured transport with a successful delivery. -/
theorem C8_send_email_total_witness :
    (send_email ⟨true, true, true, true, true, 60, "smtp.example.com", 587, "user", "pass",
      "to@example.com", "from@example.com"⟩ SmtpResult.success).2 = true ∧
    (send_email ⟨true, true, true, true, true, 60, "smtp.example.com", 587, "user", "pass",
      "to@example.com", "from@example.com"⟩ SmtpResult.success).1 = (true, "sent") := by
  have h := (C8_send_email_total ⟨true, true, true, true, true, 60, "smtp.example.com", 587,
    "user", "pass", "to@example.com", "from@example.com"⟩ SmtpResult.success).2.2 rfl rfl
  exact ⟨h.1, h.2⟩

/-! ### Store-operation characterizations (towards the diff-engine claims) -/

theorem recKey_iff {pid : Int} {cc : String} {r : StoredRec} :
    recKey pid cc r = true ↔ r.advertiser_id = pid ∧ r.country = cc := by
  simp [recKey]

theorem recKey_self (r : StoredRec) : recKey r.advertiser_id r.country r = true :=
  recKey_iff.mpr ⟨rfl, rfl⟩

theorem findRec_cons (x : StoredRec) (t : List StoredRec) (p : Int) (c : String) :
    findRec (x :: t) p c = if recKey p c x then some x else findRec t p c := by
  by_cases hx : recKey p c x = true
  · rw [findRec, List.find?_cons_of_pos _ hx, if_pos hx]
  · rw [findRec, List.find?_cons_of_neg _ hx, if_neg hx]
    rfl

theorem findRec_replaceAll (r : StoredRec) (s : List StoredRec) (p : Int) (c : String) :
    findRec (s.map (fun x => if recKey r.advertiser_id r.country x then r else x)) p c =
      if p = r.advertiser_id ∧ c = r.country then
        (findRec s r.advertiser_id r.country).map (fun _ => r)
      else findRec s p c := by
  induction s with
  | nil =>
      by_cases hpc : p = r.advertiser_id ∧ c = r.country <;> simp [findRec, hpc]
  | cons x t ih =>
      simp only [List.map_cons, findRec_cons, ih]
      by_cases hx : recKey r.advertiser_id r.country x = true
      · have hxid : x.advertiser_id = r.advertiser_id ∧ x.country = r.country := recKey_iff.mp hx
        by_cases hpc : p = r.advertiser_id ∧ c = r.country
        · simp [hx, hpc, recKey_self]
        · have h1 : recKey p c r = false := by
            rw [Bool.eq_false_iff]
            intro h
            exact hpc ⟨(recKey_iff.mp h).1.symm, (recKey_iff.mp h).2.symm⟩
          have h2 : recKey p c x = false := by
            rw [Bool.eq_false_iff]
            intro h
            exact hpc ⟨hxid.1 ▸ (recKey_iff.mp h).1.symm, hxid.2 ▸ (recKey_iff.mp h).2.symm⟩
          simp [hx, hpc, h1, h2]
      · by_cases hpc : p = r.advertiser_id ∧ c = r.country
        · have h2 : recKey p c x = false := by
            rw [Bool.eq_false_iff]
            intro h
            obtain ⟨ha, hb⟩ := recKey_iff.mp h
            exact hx (recKey_iff.mpr ⟨ha.trans hpc.1, hb.trans hpc.2⟩)
          simp [hx, hpc, h2]
        · simp [hx, hpc]

theorem findRec_insertOrReplace (s : List StoredRec) (r : StoredRec) (p : Int) (c : String) :
    findRec (insertOrReplace s r) p c =
      if p = r.advertiser_id ∧ c = r.country then some r else findRec s p c := by
  unfold insertOrReplace
  split
  · rename_i hany
    rw [findRec_replaceAll]
    by_cases hpc : p = r.advertiser_id ∧ c = r.country
    · rw [if_pos hpc, if_pos hpc]
      have hsome : (findRec s r.advertiser_id r.country).isSome := by
        rw [findRec, List.find?_isSome]
        exact List.any_eq_true.mp hany
      cases hfind : findRec s r.advertiser_id r.country with
      | none => rw [hfind] at hsome; simp at hsome
      | some y => rfl
    · rw [if_neg hpc, if_neg hpc]
  · rename_i hany
    by_cases hpc : p = r.advertiser_id ∧ c = r.country
    · rw [if_pos hpc]
      have hnone : List.find? (recKey p c) s = none := by
        rw [List.find?_eq_none]
        intro x hx hkx
        refine hany (List.any_eq_true.mpr ⟨x, hx, ?_⟩)
        obtain ⟨ha, hb⟩ := recKey_iff.mp hkx
        exact recKey_iff.mpr ⟨ha.trans hpc.1, hb.trans hpc.2⟩
      rw [findRec, List.find?_append, hnone]
      have hr : recKey p c r = true := recKey_iff.mpr ⟨hpc.1.symm, hpc.2.symm⟩
      simp [List.find?_cons_of_pos _ hr]
    · rw [if_neg hpc]
      rw [findRec, List.find?_append]
      have h1 : List.find? (recKey p c) [r] = none := by
        rw [List.find?_eq_none]
        intro x hx hkx
        obtain rfl := List.mem_singleton.mp hx
        exact hpc ⟨(recKey_iff.mp hkx).1.symm, (recKey_iff.mp hkx).2.symm⟩
      rw [h1]
      rw [Option.or_none]
      rfl

theorem findRec_deleteRec (s : List StoredRec) (pid : Int) (cc : String) (p : Int) (c : String) :
    findRec (deleteRec s pid cc) p c = if p = pid ∧ c = cc then none else findRec s p c := by
  induction s with
  | nil => by_cases hpc : p = pid ∧ c = cc <;> simp [deleteRec, findRec, hpc]
  | cons x t ih =>
      unfold deleteRec at ih ⊢
      rw [List.filter_cons]
      by_cases hx : recKey pid cc x = true
      · simp only [hx, Bool.not_true, Bool.false_eq_true, if_false, ih]
        by_cases hpc : p = pid ∧ c = cc
        · simp [hpc]
        · have h2 : recKey p c x = false := by
            rw [Bool.eq_false_iff]
            intro h
            exact hpc ⟨(recKey_iff.mp h).1.symm.trans (recKey_iff.mp hx).1,
              (recKey_iff.mp h).2.symm.trans (recKey_iff.mp hx).2⟩
          simp [hpc, findRec_cons, h2]
      · simp only [Bool.not_eq_true] at hx
        simp only [hx, Bool.not_false, if_true, findRec_cons, ih]
        by_cases hrx : recKey p c x = true
        · by_cases hpc : p = pid ∧ c = cc
          · exfalso
            have hkey : recKey pid cc x = true :=
              recKey_iff.mpr ⟨(recKey_iff.mp hrx).1.trans hpc.1, (recKey_iff.mp hrx).2.trans hpc.2⟩
            simp [hx] at hkey
          · simp [hrx, hpc]
        · simp [hrx]

theorem recKey_updFn (v : SeenVal) (now : Int) (x : StoredRec) (p : Int) (c : String) :
    recKey p c (updFn v now x) = recKey p c x := by
  simp [recKey, updFn]

theorem findRec_updateRec (s : List StoredRec) (pid : Int) (cc : String) (v : SeenVal)
    (now : Int) (p : Int) (c : String) :
    findRec (updateRec s pid cc v now) p c =
      if p = pid ∧ c = cc then (findRec s p c).map (updFn v now) else findRec s p c := by
  induction s with
  | nil => by_cases hpc : p = pid ∧ c = cc <;> simp [updateRec, findRec, hpc]
  | cons x t ih =>
      unfold updateRec at ih ⊢
      rw [List.map_cons]
      by_cases hx : recKey pid cc x = true
      · simp only [hx, if_true, findRec_cons, ih, recKey_updFn]
        by_cases hpc : p = pid ∧ c = cc
        · simp [hpc, hx]
        · have hrx : recKey p c x = false := by
            rw [Bool.eq_false_iff]
            intro h
            exact hpc ⟨(recKey_iff.mp h).1.symm.trans (recKey_iff.mp hx).1,
              (recKey_iff.mp h).2.symm.trans (recKey_iff.mp hx).2⟩
          simp [hpc, hrx]
      · simp only [Bool.not_eq_true] at hx
        simp only [hx, Bool.false_eq_true, if_false, findRec_cons, ih]
        by_cases hrx : recKey p c x = true
        · by_cases hpc : p = pid ∧ c = cc
          · exfalso
            have hkey : recKey pid cc x = true :=
              recKey_iff.mpr ⟨(recKey_iff.mp hrx).1.trans hpc.1, (recKey_iff.mp hrx).2.trans hpc.2⟩
            simp [hx] at hkey
          · simp [hrx, hpc]
        · simp [hrx]

/-! ### Key uniqueness is preserved by the store operations -/

theorem keysUnique_insertOrReplace {s : List StoredRec} (r : StoredRec)
    (h : keysUnique s) : keysUnique (insertOrReplace s r) := by
  unfold insertOrReplace
  split
  · rw [keysUnique, List.pairwise_map]
    refine List.Pairwise.imp ?_ h
    intro a b hab
    by_cases ha : recKey r.advertiser_id r.country a = true
    · by_cases hb : recKey r.advertiser_id r.country b = true
      · exfalso
        obtain ⟨ha1, ha2⟩ := recKey_iff.mp ha
        obtain ⟨hb1, hb2⟩ := recKey_iff.mp hb
        rcases hab with hid | hcc
        · exact hid (ha1.trans hb1.symm)
        · exact hcc (ha2.trans hb2.symm)
      · obtain ⟨ha1, ha2⟩ := recKey_iff.mp ha
        simp only [ha, hb, if_true, if_false]
        rcases hab with hid | hcc
        · exact Or.inl (ha1 ▸ hid)
        · exact Or.inr (ha2 ▸ hcc)
    · by_cases hb : recKey r.advertiser_id r.country b = true
      · obtain ⟨hb1, hb2⟩ := recKey_iff.mp hb
        simp only [ha, hb, if_true, if_false]
        rcases hab with hid | hcc
        · exact Or.inl (hb1 ▸ hid)
        · exact Or.inr (hb2 ▸ hcc)
      · simp only [ha, hb, if_false]
        exact hab
  · rename_i hany
    rw [keysUnique, List.pairwise_append]
    refine ⟨h, List.pairwise_singleton _ _, ?_⟩
    intro a ha b hb
    obtain rfl := List.mem_singleton.mp hb
    by_cases haid : a.advertiser_id = b.advertiser_id
    · refine Or.inr (fun hc => ?_)
      exact hany (List.any_eq_true.mpr ⟨a, ha, recKey_iff.mpr ⟨haid, hc⟩⟩)
    · exact Or.inl haid

theorem keysUnique_deleteRec {s : List StoredRec} (pid : Int) (cc : String)
    (h : keysUnique s) : keysUnique (deleteRec s pid cc) :=
  h.filter _

theorem keysUnique_updateRec {s : List StoredRec} (pid : Int) (cc : String) (v : SeenVal)
    (now : Int) (h : keysUnique s) : keysUnique (updateRec s pid cc v now) := by
  unfold updateRec keysUnique
  rw [List.pairwise_map]
  refine List.Pairwise.imp ?_ h
  intro a b hab
  by_cases ha : recKey pid cc a = true <;> by_cases hb : recKey pid cc b = true <;>
    simp only [ha, hb, if_true, if_false, updFn] <;> exact hab

/-! ### Members, keys, and the `previous` dict -/

theorem mem_findRec_of_keysUnique {s : List StoredRec} (h : keysUnique s) {r : StoredRec}
    (hmem : r ∈ s) : findRec s r.advertiser_id r.country = some r := by
  induction s with
  | nil => cases hmem
  | cons x t ih =>
      rw [findRec_cons]
      rcases List.mem_cons.mp hmem with rfl | hmem2
      · rw [if_pos (recKey_self r)]
      · have hx : recKey r.advertiser_id r.country x = false := by
          rw [Bool.eq_false_iff]
          intro hk
          rcases (List.pairwise_cons.mp h).1 r hmem2 with hid | hcc
          · exact hid (recKey_iff.mp hk).1
          · exact hcc (recKey_iff.mp hk).2
        rw [if_neg (by simp [hx])]
        exact ih (List.pairwise_cons.mp h).2 hmem2

theorem find?_previousOf (s : List StoredRec) (cc : String) (p : Int) :
    (previousOf s cc).find? (fun kv => kv.1 == p) =
      (findRec s p cc).map (fun r => (r.advertiser_id, ⟨r.name, r.status, r.relationship⟩)) := by
  induction s with
  | nil => simp [previousOf, findRec]
  | cons x t ih =>
      unfold previousOf at ih ⊢
      rw [List.filter_cons, findRec_cons]
      by_cases hc : (x.country == cc) = true
      · simp only [hc, if_true, List.map_cons]
        by_cases hid : (x.advertiser_id == p) = true
        · have hkey : recKey p cc x = true :=
            recKey_iff.mpr ⟨beq_iff_eq.mp hid, beq_iff_eq.mp hc⟩
          rw [List.find?_cons_of_pos _ (by simpa using hid)]
          simp only [hkey, if_true]
          rfl
        · have hkey : recKey p cc x = false := by
            rw [Bool.eq_false_iff]
            intro hk
            exact (by simpa using hid : ¬ x.advertiser_id = p) (recKey_iff.mp hk).1
          rw [List.find?_cons_of_neg _ (by simpa using hid)]
          simp only [hkey, Bool.false_eq_true, if_false]
          exact ih
      · have hkey : recKey p cc x = false := by
          rw [Bool.eq_false_iff]
          intro hk
          exact (by simpa using hc : ¬ x.country = cc) (recKey_iff.mp hk).2
        simp only [hc, Bool.false_eq_true, if_false, hkey]
        exact ih

theorem contains_prevKeys (s : List StoredRec) (cc : String) (p : Int) :
    ((previousOf s cc).map (fun kv => kv.1)).contains p = (findRec s p cc).isSome := by
  rw [Bool.eq_iff_iff]
  constructor
  · intro hc
    obtain ⟨kv, hkv, hbeq⟩ := List.contains_iff_exists_mem_beq.mp hc
    obtain ⟨a, ha, hfa⟩ := List.mem_map.mp hkv
    have hfs : ((previousOf s cc).find? (fun kv => kv.1 == p)).isSome := by
      rw [List.find?_isSome]
      exact ⟨a, ha, by rw [hfa]; exact beq_iff_eq.mpr (beq_iff_eq.mp hbeq).symm⟩
    rw [find?_previousOf, Option.isSome_map'] at hfs
    exact hfs
  · intro hs
    have hfs : ((previousOf s cc).find? (fun kv => kv.1 == p)).isSome := by
      rw [find?_previousOf, Option.isSome_map']
      exact hs
    rw [List.find?_isSome] at hfs
    obtain ⟨kv, hkv, hbeq⟩ := hfs
    refine List.contains_iff_exists_mem_beq.mpr ⟨kv.1, List.mem_map.mpr ⟨kv, hkv, rfl⟩, ?_⟩
    exact beq_iff_eq.mpr (beq_iff_eq.mp hbeq).symm

theorem prevKeys_nodup {s : List StoredRec} (cc : String) (h : keysUnique s) :
    ((previousOf s cc).map (fun kv => kv.1)).Nodup := by
  have hp : List.Pairwise (fun a b : StoredRec => a.advertiser_id ≠ b.advertiser_id)
      (s.filter (fun r => r.country == cc)) := by
    refine List.Pairwise.imp_of_mem ?_ (h.filter _)
    intro a b ha hb hab
    have hac : a.country = cc := by simpa using (List.mem_filter.mp ha).2
    have hbc : b.country = cc := by simpa using (List.mem_filter.mp hb).2
    rcases hab with hid | hcc
    · exact hid
    · exact absurd (hac.trans hbc.symm) hcc
  unfold previousOf
  rw [List.map_map]
  exact (List.pairwise_map).mpr hp

/-! ### The `seen` dict -/

theorem lookupSeen_cons (k : Int) (v : SeenVal) (rest : List (Int × SeenVal)) (p : Int) :
    lookupSeen ((k, v) :: rest) p = if k = p then some v else lookupSeen rest p := by
  by_cases hk : k = p
  · rw [lookupSeen, List.find?_cons_of_pos _ (by simpa using hk), if_pos hk]
    rfl
  · rw [lookupSeen, List.find?_cons_of_neg _ (by simpa using hk), if_neg hk]
    rfl

theorem lookupSeen_eq_none_of_not_mem {rest : List (Int × SeenVal)} {k : Int}
    (h : k ∉ rest.map (fun kv => kv.1)) : lookupSeen rest k = none := by
  have hfind : rest.find? (fun kv => kv.1 == k) = none := by
    rw [List.find?_eq_none]
    intro kv hkv hbeq
    exact h (List.mem_map.mpr ⟨kv, hkv, beq_iff_eq.mp hbeq⟩)
  rw [lookupSeen, hfind]
  rfl

theorem lookupSeen_mem_of_nodup {l : List (Int × SeenVal)}
    (h : (l.map (fun kv => kv.1)).Nodup) {kv : Int × SeenVal} (hmem : kv ∈ l) :
    lookupSeen l kv.1 = some kv.2 := by
  induction l with
  | nil => cases hmem
  | cons x t ih =>
      have hmap : List.map (fun kv => kv.1) (x :: t) = x.1 :: t.map (fun kv => kv.1) := rfl
      rw [hmap] at h
      have hcons := List.nodup_cons.mp h
      rcases List.mem_cons.mp hmem with rfl | hmem2
      · rw [lookupSeen, List.find?_cons_of_pos _ (by simp)]
        rfl
      · have hx : ¬((fun kv2 : Int × SeenVal => kv2.1 == kv.1) x = true) := by
          intro he
          exact hcons.1 ((beq_iff_eq.mp he) ▸ List.mem_map.mpr ⟨kv, hmem2, rfl⟩)
        rw [lookupSeen, @List.find?_cons_of_neg _ (fun kv2 => kv2.1 == kv.1) x t hx]
        exact ih hcons.2 hmem2

theorem assocSet_keys (l : List (Int × SeenVal)) (k : Int) (v : SeenVal) :
    (assocSet l k v).map (fun kv => kv.1) =
      if l.any (fun kv => kv.1 == k) then l.map (fun kv => kv.1)
      else l.map (fun kv => kv.1) ++ [k] := by
  unfold assocSet
  split
  · rename_i hany
    rw [List.map_map]
    refine List.map_congr_left ?_
    intro kv _
    by_cases hk : (kv.1 == k) = true
    · simp only [Function.comp_apply, hk, if_true]
      exact (beq_iff_eq.mp hk).symm
    · have hne : ¬ kv.1 = k := by simpa using hk
      simp [hne]
  · rename_i hany
    rw [List.map_append]
    rfl

theorem assocSet_nodup (l : List (Int × SeenVal)) (k : Int) (v : SeenVal)
    (h : (l.map (fun kv => kv.1)).Nodup) : ((assocSet l k v).map (fun kv => kv.1)).Nodup := by
  rw [assocSet_keys]
  split
  · exact h
  · rename_i hany
    refine List.Nodup.append h (List.nodup_singleton k) ?_
    intro a ha hb
    obtain rfl := List.mem_singleton.mp hb
    obtain ⟨kv, hkv, hfa⟩ := List.mem_map.mp ha
    exact hany (List.any_eq_true.mpr ⟨kv, hkv, beq_iff_eq.mpr hfa⟩)

theorem buildSeenAux_nodup (rows : List ProgRow) :
    ∀ acc : List (Int × SeenVal), (acc.map (fun kv => kv.1)).Nodup →
    ((rows.foldl
      (fun acc p =>
        match probeAdvId p with
        | none => acc
        | some pid => assocSet acc pid (seenValOf p)) acc).map (fun kv => kv.1)).Nodup := by
  induction rows with
  | nil => intro acc h; exact h
  | cons p t ih =>
      intro acc h
      rw [List.foldl_cons]
      cases hp : probeAdvId p with
      | none => exact ih acc (by simpa [hp] using h)
      | some pid =>
          have h2 := assocSet_nodup acc pid (seenValOf p) h
          simpa [hp] using ih _ h2

theorem buildSeen_nodup (rows : List ProgRow) :
    ((buildSeen rows).map (fun kv => kv.1)).Nodup :=
  buildSeenAux_nodup rows [] (by simp)

theorem buildSeenAux_filter (rows : List ProgRow) :
    ∀ acc : List (Int × SeenVal),
    rows.foldl
      (fun acc p =>
        match probeAdvId p with
        | none => acc
        | some pid => assocSet acc pid (seenValOf p)) acc =
    (rows.filter (fun p => (probeAdvId p).isSome)).foldl
      (fun acc p =>
        match probeAdvId p with
        | none => acc
        | some pid => assocSet acc pid (seenValOf p)) acc := by
  induction rows with
  | nil => intro acc; rfl
  | cons p t ih =>
      intro acc
      rw [List.foldl_cons, List.filter_cons]
      cases hp : probeAdvId p with
      | none => simp only [hp, Option.isSome_none, Bool.false_eq_true, if_false]; exact ih acc
      | some pid => simp only [hp, Option.isSome_some, if_true, List.foldl_cons]; exact ih _

theorem buildSeen_filter (rows : List ProgRow) :
    buildSeen (rows.filter (fun p => (probeAdvId p).isSome)) = buildSeen rows :=
  (buildSeenAux_filter rows []).symm

/-! ### Effect of the loop bodies on the store -/

theorem newStep_mem (cfg : AlertCfg) (oracle : Nat → SmtpResult) (cc : String) (now : Int)
    (prevKeys : List Int) (st : SysState) (kv : Int × SeenVal)
    (h : prevKeys.contains kv.1 = true) :
    newStep cfg oracle cc now prevKeys st kv = st := by
  unfold newStep
  rw [if_pos h]

theorem store_newStep_new (cfg : AlertCfg) (oracle : Nat → SmtpResult) (cc : String)
    (now : Int) (prevKeys : List Int) (st : SysState) (kv : Int × SeenVal)
    (h : prevKeys.contains kv.1 = false) :
    (newStep cfg oracle cc now prevKeys st kv).store =
      insertOrReplace st.store (newRecOf kv cc now) := by
  unfold newStep
  have hne : ¬ prevKeys.contains kv.1 = true := by
    simp only [h]
    exact Bool.false_ne_true
  rw [if_neg hne]
  dsimp only
  split <;> rfl

theorem findRec_newStep (cfg : AlertCfg) (oracle : Nat → SmtpResult) (cc : String) (now : Int)
    (prevKeys : List Int) (st : SysState) (kv : Int × SeenVal) (p : Int) (c : String) :
    findRec (newStep cfg oracle cc now prevKeys st kv).store p c =
      if p = kv.1 ∧ c = cc ∧ prevKeys.contains kv.1 = false then some (newRecOf kv cc now)
      else findRec st.store p c := by
  cases h : prevKeys.contains kv.1 with
  | true =>
      rw [newStep_mem cfg oracle cc now prevKeys st kv h]
      simp
  | false =>
      rw [store_newStep_new cfg oracle cc now prevKeys st kv h, findRec_insertOrReplace]
      have hid : (newRecOf kv cc now).advertiser_id = kv.1 := rfl
      have hco : (newRecOf kv cc now).country = cc := rfl
      rw [hid, hco]
      by_cases hpc : p = kv.1 ∧ c = cc
      · rw [if_pos hpc, if_pos ⟨hpc.1, hpc.2, rfl⟩]
      · rw [if_neg hpc, if_neg (fun h2 => hpc ⟨h2.1, h2.2.1⟩)]

theorem store_oldStep (cfg : AlertCfg) (oracle : Nat → SmtpResult) (cc : String) (now : Int)
    (seen : List (Int × SeenVal)) (st : SysState) (kv : Int × SeenVal) :
    (oldStep cfg oracle cc now seen st kv).store =
      match lookupSeen seen kv.1 with
      | none => deleteRec st.store kv.1 cc
      | some v =>
          if v.status ≠ kv.2.status ∨ v.relationship ≠ kv.2.relationship then
            updateRec st.store kv.1 cc v now
          else st.store := by
  unfold oldStep
  cases hl : lookupSeen seen kv.1 with
  | none =>
      dsimp only
      split <;> rfl
  | some v =>
      dsimp only
      split
      · split <;> rfl
      · rfl

theorem findRec_oldStep (cfg : AlertCfg) (oracle : Nat → SmtpResult) (cc : String) (now : Int)
    (seen : List (Int × SeenVal)) (st : SysState) (kv : Int × SeenVal) (p : Int) (c : String) :
    findRec (oldStep cfg oracle cc now seen st kv).store p c =
      match lookupSeen seen kv.1 with
      | none => if p = kv.1 ∧ c = cc then none else findRec st.store p c
      | some v =>
          if v.status ≠ kv.2.status ∨ v.relationship ≠ kv.2.relationship then
            (if p = kv.1 ∧ c = cc then (findRec st.store p c).map (updFn v now)
             else findRec st.store p c)
          else findRec st.store p c := by
  cases hl : lookupSeen seen kv.1 with
  | none =>
      have hst : (oldStep cfg oracle cc now seen st kv).store =
          deleteRec st.store kv.1 cc := by
        rw [store_oldStep]
        simp only [hl]
      dsimp only
      rw [hst]
      exact findRec_deleteRec st.store kv.1 cc p c
  | some v =>
      by_cases hdiff : v.status ≠ kv.2.status ∨ v.relationship ≠ kv.2.relationship
      · have hst : (oldStep cfg oracle cc now seen st kv).store =
            updateRec st.store kv.1 cc v now := by
          rw [store_oldStep]
          simp only [hl]
          rw [if_pos hdiff]
        dsimp only
        rw [hst, if_pos hdiff]
        exact findRec_updateRec st.store kv.1 cc v now p c
      · have hst : (oldStep cfg oracle cc now seen st kv).store = st.store := by
          rw [store_oldStep]
          simp only [hl]
          rw [if_neg hdiff]
        dsimp only
        rw [hst, if_neg hdiff]

theorem oldStep_noop (cfg : AlertCfg) (oracle : Nat → SmtpResult) (cc : String) (now : Int)
    (seen : List (Int × SeenVal)) (st : SysState) (kv : Int × SeenVal) (v : SeenVal)
    (hl : lookupSeen seen kv.1 = some v) (hs : v.status = kv.2.status)
    (hr : v.relationship = kv.2.relationship) :
    oldStep cfg oracle cc now seen st kv = st := by
  unfold oldStep
  simp only [hl]
  have hcond : ¬(v.status ≠ kv.2.status ∨ v.relationship ≠ kv.2.relationship) := by
    push_neg
    exact ⟨hs, hr⟩
  rw [if_neg hcond]

/-! ### Effect of the two loops on the store -/

theorem findRec_newLoop (cfg : AlertCfg) (oracle : Nat → SmtpResult) (cc : String) (now : Int)
    (prevKeys : List Int) (seen : List (Int × SeenVal))
    (hnd : (seen.map (fun kv => kv.1)).Nodup) :
    ∀ (st : SysState) (p : Int) (c : String),
    findRec ((seen.foldl (newStep cfg oracle cc now prevKeys) st)).store p c =
      match lookupSeen seen p with
      | some v =>
          if c = cc ∧ prevKeys.contains p = false then some (newRecOf (p, v) cc now)
          else findRec st.store p c
      | none => findRec st.store p c := by
  induction seen with
  | nil => intro st p c; rfl
  | cons hd tl ih =>
      obtain ⟨k, v⟩ := hd
      intro st p c
      have hmap : List.map (fun kv => kv.1) ((k, v) :: tl) = k :: tl.map (fun kv => kv.1) := rfl
      rw [hmap] at hnd
      have hcons := List.nodup_cons.mp hnd
      rw [List.foldl_cons, ih hcons.2, lookupSeen_cons]
      by_cases hp : k = p
      · subst hp
        have htl : lookupSeen tl k = none :=
          lookupSeen_eq_none_of_not_mem hcons.1
        simp only [htl, eq_self_iff_true, if_true]
        rw [findRec_newStep]
        by_cases hcc : c = cc
        · by_cases hprev : prevKeys.contains k = false
          · rw [if_pos ⟨rfl, hcc, hprev⟩, if_pos ⟨hcc, hprev⟩]
          · rw [if_neg (fun h2 => hprev h2.2.2), if_neg (fun h2 => hprev h2.2)]
        · rw [if_neg (fun h2 => hcc h2.2.1), if_neg (fun h2 => hcc h2.1)]
      · rw [if_neg hp]
        have hbase : findRec (newStep cfg oracle cc now prevKeys st (k, v)).store p c =
            findRec st.store p c := by
          rw [findRec_newStep]
          exact if_neg (fun h2 => hp h2.1.symm)
        cases hl : lookupSeen tl p with
        | none => simp only [hl, hbase]
        | some w => simp only [hl, hbase]

theorem findRec_oldLoop (cfg : AlertCfg) (oracle : Nat → SmtpResult) (cc : String) (now : Int)
    (seen : List (Int × SeenVal)) (prev : List (Int × SeenVal))
    (hnd : (prev.map (fun kv => kv.1)).Nodup) :
    ∀ (st : SysState) (p : Int) (c : String),
    findRec ((prev.foldl (oldStep cfg oracle cc now seen) st)).store p c =
      match prev.find? (fun kv => kv.1 == p) with
      | none => findRec st.store p c
      | some kv =>
          match lookupSeen seen p with
          | none => if c = cc then none else findRec st.store p c
          | some v =>
              if (v.status ≠ kv.2.status ∨ v.relationship ≠ kv.2.relationship) ∧ c = cc then
                (findRec st.store p c).map (updFn v now)
              else findRec st.store p c := by
  induction prev with
  | nil => intro st p c; rfl
  | cons hd tl ih =>
      obtain ⟨k, pv⟩ := hd
      intro st p c
      have hmap : List.map (fun kv => kv.1) ((k, pv) :: tl) = k :: tl.map (fun kv => kv.1) := rfl
      rw [hmap] at hnd
      have hcons := List.nodup_cons.mp hnd
      rw [List.foldl_cons, ih hcons.2]
      by_cases hp : (k == p) = true
      · obtain rfl := beq_iff_eq.mp hp
        rw [List.find?_cons_of_pos _ (by simp)]
        have htl : tl.find? (fun kv => kv.1 == k) = none := by
          rw [List.find?_eq_none]
          intro kv2 hkv2 hbeq
          exact hcons.1 ((beq_iff_eq.mp hbeq) ▸ List.mem_map.mpr ⟨kv2, hkv2, rfl⟩)
        simp only [htl]
        rw [findRec_oldStep]
        cases hl : lookupSeen seen k with
        | none =>
            by_cases hcc : c = cc <;> simp [hcc]
        | some v =>
            by_cases hdiff : v.status ≠ pv.status ∨ v.relationship ≠ pv.relationship <;>
              by_cases hcc : c = cc <;>
                simp [hdiff, hcc]
      · rw [@List.find?_cons_of_neg _ (fun kv => kv.1 == p) (k, pv) tl hp]
        have hkp : ¬ k = p := by simpa using hp
        have hbase : findRec (oldStep cfg oracle cc now seen st (k, pv)).store p c =
            findRec st.store p c := by
          have hne : ¬(p = (k, pv).1 ∧ c = cc) := fun h2 => hkp h2.1.symm
          rw [store_oldStep]
          cases hl : lookupSeen seen (k, pv).1 with
          | none =>
              dsimp only
              rw [findRec_deleteRec, if_neg hne]
          | some v =>
              dsimp only
              by_cases hdiff : v.status ≠ (k, pv).2.status ∨
                  v.relationship ≠ (k, pv).2.relationship
              · rw [if_pos hdiff, findRec_updateRec, if_neg hne]
              · rw [if_neg hdiff]
        cases hl : tl.find? (fun kv => kv.1 == p) with
        | none => simp only [hbase]
        | some kv2 =>
            cases hl2 : lookupSeen seen p with
            | none => simp only [hbase]
            | some v2 => simp only [hbase]

/-! ### Key uniqueness through a whole sync cycle -/

theorem keysUnique_newStep (cfg : AlertCfg) (oracle : Nat → SmtpResult) (cc : String)
    (now : Int) (prevKeys : List Int) (st : SysState) (kv : Int × SeenVal)
    (h : keysUnique st.store) : keysUnique (newStep cfg oracle cc now prevKeys st kv).store := by
  cases hc : prevKeys.contains kv.1 with
  | true => rw [newStep_mem cfg oracle cc now prevKeys st kv hc]; exact h
  | false =>
      rw [store_newStep_new cfg oracle cc now prevKeys st kv hc]
      exact keysUnique_insertOrReplace _ h

theorem keysUnique_oldStep (cfg : AlertCfg) (oracle : Nat → SmtpResult) (cc : String)
    (now : Int) (seen : List (Int × SeenVal)) (st : SysState) (kv : Int × SeenVal)
    (h : keysUnique st.store) : keysUnique (oldStep cfg oracle cc now seen st kv).store := by
  rw [store_oldStep]
  cases lookupSeen seen kv.1 with
  | none => exact keysUnique_deleteRec _ _ h
  | some v =>
      dsimp only
      split
      · exact keysUnique_updateRec _ _ _ _ h
      · exact h

theorem keysUnique_foldl {β : Type} (f : SysState → β → SysState)
    (hf : ∀ st b, keysUnique st.store → keysUnique (f st b).store) :
    ∀ (l : List β) (st : SysState), keysUnique st.store → keysUnique (l.foldl f st).store := by
  intro l
  induction l with
  | nil => intro st h; exact h
  | cons b t ih =>
      intro st h
      rw [List.foldl_cons]
      exact ih _ (hf st b h)

theorem keysUnique_syncOk (cfg : AlertCfg) (oracle : Nat → SmtpResult) (cc : String)
    (rows : List ProgRow) (now : Int) (st : SysState) (h : keysUnique st.store) :
    keysUnique (syncAndAlert cfg oracle cc (.ok rows) now st).store := by
  unfold syncAndAlert
  dsimp only
  exact keysUnique_foldl _ (fun st2 kv h2 => keysUnique_oldStep _ _ _ _ _ _ _ h2) _ _
    (keysUnique_foldl _ (fun st2 kv h2 => keysUnique_newStep _ _ _ _ _ _ _ h2) _ _ h)

/-! ### The full characterization of one successful sync cycle -/

/-- What one successful `sync_and_alert` cycle does to the stored row under any
key: rows of other countries are untouched; under the synced country, an
advertiser absent from `seen` is absent afterwards, a new advertiser is stored
with `first_seen = last_seen = now`, a changed advertiser is updated in place
with `last_seen = now`, and an unchanged advertiser's row is kept verbatim. -/
theorem syncOk_findRec (cfg : AlertCfg) (oracle : Nat → SmtpResult) (cc : String)
    (rows : List ProgRow) (now : Int) (st : SysState) (hu : keysUnique st.store)
    (p : Int) (c : String) :
    findRec (syncAndAlert cfg oracle cc (.ok rows) now st).store p c =
      if c = cc then
        match lookupSeen (buildSeen rows) p, findRec st.store p cc with
        | none, _ => none
        | some v, none => some (newRecOf (p, v) cc now)
        | some v, some r0 =>
            if v.status ≠ r0.status ∨ v.relationship ≠ r0.relationship then
              some (updFn v now r0)
            else some r0
      else findRec st.store p c := by
  unfold syncAndAlert
  dsimp only
  rw [findRec_oldLoop cfg oracle cc now (buildSeen rows) (previousOf st.store cc)
    (prevKeys_nodup cc hu) _ p c]
  rw [find?_previousOf st.store cc p]
  cases hrec : findRec st.store p cc with
  | none =>
      simp only [Option.map_none']
      rw [findRec_newLoop cfg oracle cc now _ (buildSeen rows) (buildSeen_nodup rows) st p c]
      have hcont : ((previousOf st.store cc).map (fun kv => kv.1)).contains p = false := by
        rw [contains_prevKeys, hrec]
        rfl
      cases hlook : lookupSeen (buildSeen rows) p with
      | none =>
          dsimp only
          by_cases hcc : c = cc
          · rw [if_pos hcc]
            rw [hcc]
            exact hrec
          · rw [if_neg hcc]
      | some v =>
          dsimp only
          by_cases hcc : c = cc
          · rw [if_pos ⟨hcc, hcont⟩, if_pos hcc]
          · rw [if_neg (fun h2 => hcc h2.1), if_neg hcc]
  | some r0 =>
      simp only [Option.map_some']
      have hcont : ((previousOf st.store cc).map (fun kv => kv.1)).contains p = true := by
        rw [contains_prevKeys, hrec]
        rfl
      have hbase : findRec ((buildSeen rows).foldl (newStep cfg oracle cc now
          ((previousOf st.store cc).map (fun kv => kv.1))) st).store p c =
          findRec st.store p c := by
        rw [findRec_newLoop cfg oracle cc now _ (buildSeen rows) (buildSeen_nodup rows) st p c]
        cases hlook : lookupSeen (buildSeen rows) p with
        | none => rfl
        | some v =>
            dsimp only
            refine if_neg (fun h2 => ?_)
            rw [hcont] at h2
            exact absurd h2.2 (by simp)
      cases hlook : lookupSeen (buildSeen rows) p with
      | none =>
          dsimp only
          rw [hbase]
      | some v =>
          dsimp only
          rw [hbase]
          by_cases hdiff : v.status ≠ r0.status ∨ v.relationship ≠ r0.relationship
          · by_cases hcc : c = cc
            · rw [if_pos ⟨hdiff, hcc⟩, if_pos hcc, if_pos hdiff, hcc, hrec]
              rfl
            · rw [if_neg (fun h2 => hcc h2.2), if_neg hcc]
          · by_cases hcc : c = cc
            · rw [if_neg (fun h2 => hdiff h2.1), if_pos hcc, if_neg hdiff, hcc, hrec]
            · rw [if_neg (fun h2 => hcc h2.2), if_neg hcc]

/-- A fold whose every step is the identity (for reasons independent of the
running state) leaves the state unchanged. -/
theorem foldl_id {β : Type} (f : SysState → β → SysState) (st : SysState) :
    ∀ (l : List β), (∀ x ∈ l, ∀ s, f s x = s) → l.foldl f st = st := by
  intro l
  induction l with
  | nil => intro h; rfl
  | cons x t ih =>
      intro h
      rw [List.foldl_cons, h x (List.mem_cons_self x t)]
      exact ih (fun y hy s => h y (List.mem_cons_of_mem x hy) s)

/-- C1 (confirmed): running `sync_and_alert` a second time on the same fetched
programme list is the identity on the whole system state — the store, the alert
log, the number of `send_email` calls, the number of delivery attempts and the
feed-failure throttle state are all unchanged, so the second run emits zero
new/removed/closed alerts. The hypothesis is the PRIMARY KEY invariant of the
programmes table, which SQLite enforces. -/
theorem C1_idempotent_diff (cfg : AlertCfg) (oracle : Nat → SmtpResult) (cc : String)
    (rows : List ProgRow) (t1 t2 : Int) (st0 : SysState) (hu : keysUnique st0.store) :
    syncAndAlert cfg oracle cc (.ok rows) t2 (syncAndAlert cfg oracle cc (.ok rows) t1 st0) =
      syncAndAlert cfg oracle cc (.ok rows) t1 st0 := by
  have hu1 : keysUnique (syncAndAlert cfg oracle cc (.ok rows) t1 st0).store :=
    keysUnique_syncOk cfg oracle cc rows t1 st0 hu
  set st1 := syncAndAlert cfg oracle cc (.ok rows) t1 st0 with hst1
  unfold syncAndAlert
  dsimp only
  have hloop1 : (buildSeen rows).foldl
      (newStep cfg oracle cc t2 ((previousOf st1.store cc).map (fun kv => kv.1))) st1 = st1 := by
    apply foldl_id
    intro kv hkv s
    apply newStep_mem
    rw [contains_prevKeys]
    have hlk : lookupSeen (buildSeen rows) kv.1 = some kv.2 :=
      lookupSeen_mem_of_nodup (buildSeen_nodup rows) hkv
    rw [hst1, syncOk_findRec cfg oracle cc rows t1 st0 hu kv.1 cc, if_pos rfl, hlk]
    cases findRec st0.store kv.1 cc with
    | none => rfl
    | some r0 => dsimp only; split <;> rfl
  rw [hloop1]
  apply foldl_id
  intro kv hkv s
  obtain ⟨r, hr, hkveq⟩ := List.mem_map.mp hkv
  have hrmem : r ∈ st1.store := (List.mem_filter.mp hr).1
  have hrcc : r.country = cc := by simpa using (List.mem_filter.mp hr).2
  have hfind : findRec st1.store r.advertiser_id r.country = some r :=
    mem_findRec_of_keysUnique hu1 hrmem
  rw [hrcc] at hfind
  have hchar := syncOk_findRec cfg oracle cc rows t1 st0 hu r.advertiser_id cc
  rw [← hst1] at hchar
  rw [hfind, if_pos rfl] at hchar
  cases hlk : lookupSeen (buildSeen rows) r.advertiser_id with
  | none =>
      exfalso
      rw [hlk] at hchar
      cases hrec : findRec st0.store r.advertiser_id cc <;> rw [hrec] at hchar <;>
        exact absurd hchar (by simp)
  | some v =>
      rw [hlk] at hchar
      have hsv : v.status = r.status ∧ v.relationship = r.relationship := by
        cases hrec : findRec st0.store r.advertiser_id cc with
        | none =>
            rw [hrec] at hchar
            dsimp only at hchar
            injection hchar with h
            rw [h]
            exact ⟨rfl, rfl⟩
        | some r0 =>
            rw [hrec] at hchar
            dsimp only at hchar
            by_cases hdiff : v.status ≠ r0.status ∨ v.relationship ≠ r0.relationship
            · rw [if_pos hdiff] at hchar
              injection hchar with h
              rw [h]
              exact ⟨rfl, rfl⟩
            · rw [if_neg hdiff] at hchar
              injection hchar with h
              push_neg at hdiff
              rw [h]
              exact ⟨hdiff.1, hdiff.2⟩
      have hkv1 : kv.1 = r.advertiser_id := by rw [← hkveq]
      have hkv2s : kv.2.status = r.status := by rw [← hkveq]
      have hkv2r : kv.2.relationship = r.relationship := by rw [← hkveq]
      exact oldStep_noop cfg oracle cc t2 (buildSeen rows) s kv v
        (by rw [hkv1]; exact hlk) (by rw [hkv2s]; exact hsv.1) (by rw [hkv2r]; exact hsv.2)

/-- C1 (witness): the idempotence theorem applied to a concrete configuration,
one fetched programme row, and the empty store. -/
theorem C1_idempotent_diff_witness :
    syncAndAlert ⟨true, true, true, true, true, 60, "smtp.example.com", 587, "user", "pass",
        "to@example.com", "from@example.com"⟩ (fun _ => SmtpResult.success) "FR"
      (.ok [⟨some 42, none, none, some "Shop", none, none, some "active", none,
        some "joined", none⟩]) 2
      (syncAndAlert ⟨true, true, true, true, true, 60, "smtp.example.com", 587, "user", "pass",
          "to@example.com", "from@example.com"⟩ (fun _ => SmtpResult.success) "FR"
        (.ok [⟨some 42, none, none, some "Shop", none, none, some "active", none,
          some "joined", none⟩]) 1 ⟨[], [], 0, 0, []⟩) =
    syncAndAlert ⟨true, true, true, true, true, 60, "smtp.example.com", 587, "user", "pass",
        "to@example.com", "from@example.com"⟩ (fun _ => SmtpResult.success) "FR"
      (.ok [⟨some 42, none, none, some "Shop", none, none, some "active", none,
        some "joined", none⟩]) 1 ⟨[], [], 0, 0, []⟩ :=
  C1_idempotent_diff _ _ _ _ _ _ _ List.Pairwise.nil

/-! ### The feed-failure path -/

theorem feedAlertGet_set (l : List (String × Int)) (cc : String) (t : Int) :
    feedAlertGet (feedAlertSet l cc t) cc = some t := by
  induction l with
  | nil => simp [feedAlertSet, feedAlertGet]
  | cons x xs ih =>
      unfold feedAlertSet at ih ⊢
      by_cases hx : (x.1 == cc) = true
      · rw [if_pos (by simp [List.any_cons, hx])]
        rw [List.map_cons]
        simp only [hx, if_true]
        rw [feedAlertGet, List.find?_cons_of_pos _ (by simp)]
        rfl
      · by_cases hxs : (xs.any (fun kv => kv.1 == cc)) = true
        · rw [if_pos (by simp [List.any_cons, hxs])]
          rw [List.map_cons]
          have hx2 : (x.1 == cc) = false := by
            rw [← Bool.not_eq_true]
            exact hx
          simp only [hx2, Bool.false_eq_true, if_false]
          rw [feedAlertGet, @List.find?_cons_of_neg _ (fun kv => kv.1 == cc) x _ (by simpa using hx)]
          have h2 := ih
          rw [if_pos hxs] at h2
          exact h2
        · rw [if_neg (by simp [List.any_cons, hx, hxs])]
          rw [show ((x :: xs) ++ [(cc, t)]) = x :: (xs ++ [(cc, t)]) from rfl]
          rw [feedAlertGet, @List.find?_cons_of_neg _ (fun kv => kv.1 == cc) x _ (by simpa using hx)]
          have h2 := ih
          rw [if_neg (by simpa using hxs)] at h2
          exact h2

theorem syncErr_not_allowed (cfg : AlertCfg) (oracle : Nat → SmtpResult) (cc e : String)
    (now : Int) (st : SysState) (h : alert_allowed cfg "feed_failure" = false) :
    syncAndAlert cfg oracle cc (.err e) now st = st := by
  unfold syncAndAlert
  dsimp only
  rw [if_neg (by simp [h])]

theorem syncErr_send_none (cfg : AlertCfg) (oracle : Nat → SmtpResult) (cc e : String)
    (now : Int) (st : SysState) (ha : alert_allowed cfg "feed_failure" = true)
    (hg : feedAlertGet st.feedAlert cc = none) :
    syncAndAlert cfg oracle cc (.err e) now st =
      { doAlert cfg oracle "feed_failure" cc none none ("error=" ++ e) st with
        feedAlert := feedAlertSet st.feedAlert cc now } := by
  unfold syncAndAlert
  dsimp only
  rw [if_pos ha]
  simp only [hg]
  rfl

theorem syncErr_send_some (cfg : AlertCfg) (oracle : Nat → SmtpResult) (cc e : String)
    (now : Int) (st : SysState) (last : Int) (ha : alert_allowed cfg "feed_failure" = true)
    (hg : feedAlertGet st.feedAlert cc = some last) (hcd : now - last ≥ cfg.cooldownMin * 60) :
    syncAndAlert cfg oracle cc (.err e) now st =
      { doAlert cfg oracle "feed_failure" cc none none ("error=" ++ e) st with
        feedAlert := feedAlertSet st.feedAlert cc now } := by
  unfold syncAndAlert
  dsimp only
  rw [if_pos ha]
  simp only [hg]
  rw [if_pos hcd]
  rfl

theorem syncErr_suppressed (cfg : AlertCfg) (oracle : Nat → SmtpResult) (cc e : String)
    (now : Int) (st : SysState) (last : Int) (ha : alert_allowed cfg "feed_failure" = true)
    (hg : feedAlertGet st.feedAlert cc = some last)
    (hcd : ¬(now - last ≥ cfg.cooldownMin * 60)) :
    syncAndAlert cfg oracle cc (.err e) now st = st := by
  unfold syncAndAlert
  dsimp only
  rw [if_pos ha]
  simp only [hg]
  rw [if_neg hcd]

theorem attempts_doAlert_le (cfg : AlertCfg) (oracle : Nat → SmtpResult) (event cc : String)
    (pid : Option Int) (nm : Option String) (details : String) (st : SysState) :
    (doAlert cfg oracle event cc pid nm details st).attempts ≤ st.attempts + 1 := by
  unfold doAlert
  dsimp only
  split <;> omega

/-- C5 (confirmed): two fetch failures for the same country within the cooldown
window make at most one delivery attempt in total, and every fetch failure
leaves the programmes store untouched (no insert, update or delete, and no
diff runs). -/
theorem C5_feed_failure_cooldown (cfg : AlertCfg) (oracle : Nat → SmtpResult) (cc : String)
    (e1 e2 : String) (t1 t2 : Int) (st0 : SysState)
    (hwin : t2 - t1 < cfg.cooldownMin * 60) :
    (syncAndAlert cfg oracle cc (.err e1) t1 st0).store = st0.store ∧
    (syncAndAlert cfg oracle cc (.err e2) t2
      (syncAndAlert cfg oracle cc (.err e1) t1 st0)).store = st0.store ∧
    (syncAndAlert cfg oracle cc (.err e2) t2
      (syncAndAlert cfg oracle cc (.err e1) t1 st0)).attempts ≤ st0.attempts + 1 := by
  have hstore : ∀ (e : String) (now : Int) (st : SysState),
      (syncAndAlert cfg oracle cc (.err e) now st).store = st.store := by
    intro e now st
    unfold syncAndAlert
    dsimp only
    split
    · split
      · rfl
      · split <;> rfl
    · rfl
  refine ⟨hstore e1 t1 st0, by rw [hstore, hstore], ?_⟩
  cases ha : alert_allowed cfg "feed_failure" with
  | false =>
      rw [syncErr_not_allowed cfg oracle cc e1 t1 st0 ha,
        syncErr_not_allowed cfg oracle cc e2 t2 st0 ha]
      omega
  | true =>
      cases hg : feedAlertGet st0.feedAlert cc with
      | none =>
          rw [syncErr_send_none cfg oracle cc e1 t1 st0 ha hg]
          have hg1 : feedAlertGet
              ({ doAlert cfg oracle "feed_failure" cc none none ("error=" ++ e1) st0 with
                 feedAlert := feedAlertSet st0.feedAlert cc t1 }).feedAlert cc = some t1 :=
            feedAlertGet_set st0.feedAlert cc t1
          rw [syncErr_suppressed cfg oracle cc e2 t2 _ t1 ha hg1 (by omega)]
          exact attempts_doAlert_le cfg oracle "feed_failure" cc none none ("error=" ++ e1) st0
      | some last =>
          by_cases hcd : t1 - last ≥ cfg.cooldownMin * 60
          · rw [syncErr_send_some cfg oracle cc e1 t1 st0 last ha hg hcd]
            have hg1 : feedAlertGet
                ({ doAlert cfg oracle "feed_failure" cc none none ("error=" ++ e1) st0 with
                   feedAlert := feedAlertSet st0.feedAlert cc t1 }).feedAlert cc = some t1 :=
              feedAlertGet_set st0.feedAlert cc t1
            rw [syncErr_suppressed cfg oracle cc e2 t2 _ t1 ha hg1 (by omega)]
            exact attempts_doAlert_le cfg oracle "feed_failure" cc none none ("error=" ++ e1) st0
          · rw [syncErr_suppressed cfg oracle cc e1 t1 st0 last ha hg hcd]
            by_cases hcd2 : t2 - last ≥ cfg.cooldownMin * 60
            · rw [syncErr_send_some cfg oracle cc e2 t2 st0 last ha hg hcd2]
              exact attempts_doAlert_le cfg oracle "feed_failure" cc none none ("error=" ++ e2) st0
            · rw [syncErr_suppressed cfg oracle cc e2 t2 st0 last ha hg hcd2]
              omega

/-- C5 (witness): the cooldown theorem at a concrete configuration, two
failures 10 seconds apart against the default 60-minute cooldown. -/
theorem C5_feed_failure_cooldown_witness :
    (syncAndAlert ⟨true, true, true, true, true, 60, "smtp.example.com", 587, "user", "pass",
        "to@example.com", "from@example.com"⟩ (fun _ => SmtpResult.success) "FR"
      (.err "timeout") 0 ⟨[], [], 0, 0, []⟩).store = (⟨[], [], 0, 0, []⟩ : SysState).store ∧
    (syncAndAlert ⟨true, true, true, true, true, 60, "smtp.example.com", 587, "user", "pass",
        "to@example.com", "from@example.com"⟩ (fun _ => SmtpResult.success) "FR"
      (.err "timeout") 10
      (syncAndAlert ⟨true, true, true, true, true, 60, "smtp.example.com", 587, "user", "pass",
          "to@example.com", "from@example.com"⟩ (fun _ => SmtpResult.success) "FR"
        (.err "timeout") 0 ⟨[], [], 0, 0, []⟩)).store = (⟨[], [], 0, 0, []⟩ : SysState).store ∧
    (syncAndAlert ⟨true, true, true, true, true, 60, "smtp.example.com", 587, "user", "pass",
        "to@example.com", "from@example.com"⟩ (fun _ => SmtpResult.success) "FR"
      (.err "timeout") 10
      (syncAndAlert ⟨true, true, true, true, true, 60, "smtp.example.com", 587, "user", "pass",
          "to@example.com", "from@example.com"⟩ (fun _ => SmtpResult.success) "FR"
        (.err "timeout") 0 ⟨[], [], 0, 0, []⟩)).attempts
      ≤ (⟨[], [], 0, 0, []⟩ : SysState).attempts + 1 :=
  C5_feed_failure_cooldown _ _ _ _ _ 0 10 _ (by decide)

/-! ### What the two loops append to the alert log -/

theorem log_newStep (cfg : AlertCfg) (oracle : Nat → SmtpResult) (cc : String) (now : Int)
    (prevKeys : List Int) (st : SysState) (kv : Int × SeenVal) :
    ∃ t, (newStep cfg oracle cc now prevKeys st kv).alertLog = st.alertLog ++ t ∧
      ∀ e ∈ t, e.advertiser_id = some kv.1 ∧ prevKeys.contains kv.1 = false := by
  unfold newStep
  split
  · exact ⟨[], by simp, by simp⟩
  · rename_i hc
    have hcf : prevKeys.contains kv.1 = false := by
      rw [← Bool.not_eq_true]
      exact hc
    split
    · refine ⟨_, rfl, ?_⟩
      intro e he
      obtain rfl := List.mem_singleton.mp he
      exact ⟨rfl, hcf⟩
    · exact ⟨[], by simp, by simp⟩

theorem log_oldStep (cfg : AlertCfg) (oracle : Nat → SmtpResult) (cc : String) (now : Int)
    (seen : List (Int × SeenVal)) (st : SysState) (kv : Int × SeenVal) :
    ∃ t, (oldStep cfg oracle cc now seen st kv).alertLog = st.alertLog ++ t ∧
      (∀ e ∈ t, e.advertiser_id = some kv.1 ∧
        (lookupSeen seen kv.1 = none ∨
         ∃ v, lookupSeen seen kv.1 = some v ∧
           (v.status ≠ kv.2.status ∨ v.relationship ≠ kv.2.relationship))) ∧
      (lookupSeen seen kv.1 = none → alert_allowed cfg "removed" = true →
        ∃ e ∈ t, e.event = "removed" ∧ e.advertiser_id = some kv.1) := by
  unfold oldStep
  cases hl : lookupSeen seen kv.1 with
  | none =>
      dsimp only
      split
      · refine ⟨_, rfl, ?_, ?_⟩
        · intro e he
          obtain rfl := List.mem_singleton.mp he
          exact ⟨rfl, Or.inl rfl⟩
        · intro _ _
          exact ⟨_, List.mem_singleton_self _, rfl, rfl⟩
      · rename_i hal
        refine ⟨[], by simp, by simp, ?_⟩
        intro _ hal2
        exact absurd hal2 hal
  | some v =>
      dsimp only
      split
      · rename_i hdiff
        split
        · refine ⟨_, rfl, ?_, ?_⟩
          · intro e he
            obtain rfl := List.mem_singleton.mp he
            exact ⟨rfl, Or.inr ⟨v, rfl, hdiff⟩⟩
          · intro hlook _
            exact absurd hlook (by simp)
        · refine ⟨[], by simp, by simp, ?_⟩
          intro hlook _
          exact absurd hlook (by simp)
      · refine ⟨[], by simp, by simp, ?_⟩
        intro hlook _
        exact absurd hlook (by simp)

theorem log_newLoop (cfg : AlertCfg) (oracle : Nat → SmtpResult) (cc : String) (now : Int)
    (prevKeys : List Int) (seen : List (Int × SeenVal)) :
    ∀ st : SysState,
    ∃ t, ((seen.foldl (newStep cfg oracle cc now prevKeys) st)).alertLog = st.alertLog ++ t ∧
      ∀ e ∈ t, ∃ kv ∈ seen, e.advertiser_id = some kv.1 ∧ prevKeys.contains kv.1 = false := by
  induction seen with
  | nil => intro st; exact ⟨[], by simp, by simp⟩
  | cons hd tl ih =>
      intro st
      obtain ⟨t0, ht0, hp0⟩ := log_newStep cfg oracle cc now prevKeys st hd
      obtain ⟨t1, ht1, hp1⟩ := ih (newStep cfg oracle cc now prevKeys st hd)
      refine ⟨t0 ++ t1, ?_, ?_⟩
      · rw [List.foldl_cons, ht1, ht0, List.append_assoc]
      · intro e he
        rcases List.mem_append.mp he with h0 | h1
        · exact ⟨hd, List.mem_cons_self hd tl, (hp0 e h0).1, (hp0 e h0).2⟩
        · obtain ⟨kv, hkv, he2⟩ := hp1 e h1
          exact ⟨kv, List.mem_cons_of_mem hd hkv, he2⟩

theorem log_oldLoop (cfg : AlertCfg) (oracle : Nat → SmtpResult) (cc : String) (now : Int)
    (seen : List (Int × SeenVal)) (prev : List (Int × SeenVal)) :
    ∀ st : SysState,
    ∃ t, ((prev.foldl (oldStep cfg oracle cc now seen) st)).alertLog = st.alertLog ++ t ∧
      (∀ e ∈ t, ∃ kv ∈ prev, e.advertiser_id = some kv.1 ∧
        (lookupSeen seen kv.1 = none ∨
         ∃ v, lookupSeen seen kv.1 = some v ∧
           (v.status ≠ kv.2.status ∨ v.relationship ≠ kv.2.relationship))) ∧
      (∀ kv ∈ prev, lookupSeen seen kv.1 = none → alert_allowed cfg "removed" = true →
        ∃ e ∈ t, e.event = "removed" ∧ e.advertiser_id = some kv.1) := by
  induction prev with
  | nil => intro st; exact ⟨[], by simp, by simp, by simp⟩
  | cons hd tl ih =>
      intro st
      obtain ⟨t0, ht0, hp0, hr0⟩ := log_oldStep cfg oracle cc now seen st hd
      obtain ⟨t1, ht1, hp1, hr1⟩ := ih (oldStep cfg oracle cc now seen st hd)
      refine ⟨t0 ++ t1, ?_, ?_, ?_⟩
      · rw [List.foldl_cons, ht1, ht0, List.append_assoc]
      · intro e he
        rcases List.mem_append.mp he with h0 | h1
        · exact ⟨hd, List.mem_cons_self hd tl, (hp0 e h0).1, (hp0 e h0).2⟩
        · obtain ⟨kv, hkv, he2⟩ := hp1 e h1
          exact ⟨kv, List.mem_cons_of_mem hd hkv, he2⟩
      · intro kv hkv hlook hal
        rcases List.mem_cons.mp hkv with rfl | hkv2
        · obtain ⟨e, he, hev, hepid⟩ := hr0 hlook hal
          exact ⟨e, List.mem_append.mpr (Or.inl he), hev, hepid⟩
        · obtain ⟨e, he, hev, hepid⟩ := hr1 kv hkv2 hlook hal
          exact ⟨e, List.mem_append.mpr (Or.inr he), hev, hepid⟩

/-- C9: rows without an identifier are invisible to the diff. Filtering the
fetched rows down to those where the `advertiserId or programId or id` probe
yields something changes nothing (id-less rows never enter `seen`), and a
previously stored advertiser absent from `seen` — in particular one whose
current row lacks all three identifiers — is deleted from the store, with a
"removed" alert row appended when that alert kind is enabled. -/
theorem C9_idless_rows (cfg : AlertCfg) (oracle : Nat → SmtpResult) (cc : String)
    (rows : List ProgRow) (now : Int) (st : SysState) (pid : Int) (r0 : StoredRec)
    (hu : keysUnique st.store)
    (hfind : findRec st.store pid cc = some r0)
    (hnoid : lookupSeen (buildSeen rows) pid = none) :
    syncAndAlert cfg oracle cc (.ok rows) now st =
      syncAndAlert cfg oracle cc
        (.ok (rows.filter (fun p => (probeAdvId p).isSome))) now st ∧
    findRec (syncAndAlert cfg oracle cc (.ok rows) now st).store pid cc = none ∧
    (alert_allowed cfg "removed" = true →
      ∃ t, (syncAndAlert cfg oracle cc (.ok rows) now st).alertLog = st.alertLog ++ t ∧
        ∃ e ∈ t, e.event = "removed" ∧ e.advertiser_id = some pid) := by
  refine ⟨?_, ?_, ?_⟩
  · unfold syncAndAlert
    dsimp only
    rw [buildSeen_filter]
  · rw [syncOk_findRec cfg oracle cc rows now st hu pid cc, if_pos rfl, hnoid, hfind]
  · intro hal
    unfold syncAndAlert
    dsimp only
    obtain ⟨t0, ht0, _⟩ := log_newLoop cfg oracle cc now
      ((previousOf st.store cc).map (fun kv => kv.1)) (buildSeen rows) st
    obtain ⟨t1, ht1, _, hrem⟩ := log_oldLoop cfg oracle cc now (buildSeen rows)
      (previousOf st.store cc)
      ((buildSeen rows).foldl
        (newStep cfg oracle cc now ((previousOf st.store cc).map (fun kv => kv.1))) st)
    refine ⟨t0 ++ t1, ?_, ?_⟩
    · rw [ht1, ht0, List.append_assoc]
    · have hfind' : st.store.find? (recKey pid cc) = some r0 := hfind
      have hk := List.find?_some hfind'
      have hadv : r0.advertiser_id = pid := (recKey_iff.mp hk).1
      have hcc2 : r0.country = cc := (recKey_iff.mp hk).2
      have hkv : (r0.advertiser_id, (⟨r0.name, r0.status, r0.relationship⟩ : SeenVal)) ∈
          previousOf st.store cc := by
        unfold previousOf
        refine List.mem_map.mpr ⟨r0, List.mem_filter.mpr ⟨?_, ?_⟩, rfl⟩
        · exact List.mem_of_find?_eq_some hfind'
        · exact beq_iff_eq.mpr hcc2
      have hnone : lookupSeen (buildSeen rows)
          (r0.advertiser_id, (⟨r0.name, r0.status, r0.relationship⟩ : SeenVal)).1 = none := by
        dsimp only
        rw [hadv]
        exact hnoid
      obtain ⟨e, he, hev, hepid⟩ := hrem _ hkv hnone hal
      refine ⟨e, List.mem_append.mpr (Or.inr he), hev, ?_⟩
      rw [hepid]
      dsimp only
      rw [hadv]

/-- C9 (witness): with one stored advertiser (id 7 in "SE") and an empty fetch
— in particular no row carrying an identifier for 7 — the sync deletes the
stored row. -/
theorem C9_idless_rows_witness :
    findRec (syncAndAlert
        ⟨true, true, true, true, true, 60, "smtp.example.com", 587, "user", "pass",
          "to@example.com", "from@example.com"⟩
        (fun _ => SmtpResult.success) "SE" (.ok []) 5
        ⟨[⟨7, "Shop", "active", "joined", "SE", 1, 2⟩], [], 0, 0, []⟩).store 7 "SE" = none :=
  (C9_idless_rows
    ⟨true, true, true, true, true, 60, "smtp.example.com", 587, "user", "pass",
      "to@example.com", "from@example.com"⟩
    (fun _ => SmtpResult.success) "SE" [] 5
    ⟨[⟨7, "Shop", "active", "joined", "SE", 1, 2⟩], [], 0, 0, []⟩
    7 ⟨7, "Shop", "active", "joined", "SE", 1, 2⟩
    (by simp [keysUnique]) rfl rfl).2.1

/-- C10: frame on unchanged programmes. If advertiser `pid` is stored in `cc`
and the fetch carries it with the same status and relationship, the stored row
survives the sync verbatim — same name and last_seen even if the fetched name
differs — and no alert-log entry of this run mentions `pid`; last_seen is set
to `now` only through the insert branch (`newRecOf`) or the changed branch
(`updFn`), stated here as the remaining two conjuncts. -/
theorem C10_frame_unchanged (cfg : AlertCfg) (oracle : Nat → SmtpResult) (cc : String)
    (rows : List ProgRow) (now : Int) (st : SysState) (pid : Int) (r0 : StoredRec)
    (v : SeenVal)
    (hu : keysUnique st.store)
    (hfind : findRec st.store pid cc = some r0)
    (hlook : lookupSeen (buildSeen rows) pid = some v)
    (hs : v.status = r0.status) (hr : v.relationship = r0.relationship) :
    findRec (syncAndAlert cfg oracle cc (.ok rows) now st).store pid cc = some r0 ∧
    (∃ t, (syncAndAlert cfg oracle cc (.ok rows) now st).alertLog = st.alertLog ++ t ∧
      ∀ e ∈ t, e.advertiser_id ≠ some pid) ∧
    (∀ p2 v2, findRec st.store p2 cc = none →
      lookupSeen (buildSeen rows) p2 = some v2 →
      findRec (syncAndAlert cfg oracle cc (.ok rows) now st).store p2 cc =
        some (newRecOf (p2, v2) cc now)) ∧
    (∀ p3 v3 r3, findRec st.store p3 cc = some r3 →
      lookupSeen (buildSeen rows) p3 = some v3 →
      (v3.status ≠ r3.status ∨ v3.relationship ≠ r3.relationship) →
      findRec (syncAndAlert cfg oracle cc (.ok rows) now st).store p3 cc =
        some (updFn v3 now r3)) := by
  have hne : ¬(v.status ≠ r0.status ∨ v.relationship ≠ r0.relationship) := by
    push_neg
    exact ⟨hs, hr⟩
  refine ⟨?_, ?_, ?_, ?_⟩
  · rw [syncOk_findRec cfg oracle cc rows now st hu pid cc, if_pos rfl, hlook, hfind]
    dsimp only
    rw [if_neg hne]
  · unfold syncAndAlert
    dsimp only
    obtain ⟨t0, ht0, hp0⟩ := log_newLoop cfg oracle cc now
      ((previousOf st.store cc).map (fun kv => kv.1)) (buildSeen rows) st
    obtain ⟨t1, ht1, hp1, _⟩ := log_oldLoop cfg oracle cc now (buildSeen rows)
      (previousOf st.store cc)
      ((buildSeen rows).foldl
        (newStep cfg oracle cc now ((previousOf st.store cc).map (fun kv => kv.1))) st)
    refine ⟨t0 ++ t1, ?_, ?_⟩
    · rw [ht1, ht0, List.append_assoc]
    · intro e he heq
      rcases List.mem_append.mp he with h0 | h1
      · obtain ⟨kv, _, hepid, hcont⟩ := hp0 e h0
        have hk1 : kv.1 = pid := by
          rw [hepid] at heq
          exact Option.some.inj heq
        rw [hk1, contains_prevKeys, hfind] at hcont
        exact absurd hcont (by simp)
      · obtain ⟨kv, hkv, hepid, hcond⟩ := hp1 e h1
        have hk1 : kv.1 = pid := by
          rw [hepid] at heq
          exact Option.some.inj heq
        unfold previousOf at hkv
        obtain ⟨r, hrf, hre⟩ := List.mem_map.mp hkv
        obtain ⟨hrm, hrc⟩ := List.mem_filter.mp hrf
        have hrcc : r.country = cc := by simpa using hrc
        have hradv : r.advertiser_id = pid := by
          rw [← hre] at hk1
          exact hk1
        have hfr : findRec st.store pid cc = some r := by
          have h3 := mem_findRec_of_keysUnique hu hrm
          rw [hradv, hrcc] at h3
          exact h3
        have hrr0 : r = r0 := Option.some.inj (hfr.symm.trans hfind)
        have hkvs : kv.2.status = r0.status := by
          rw [← hre, ← hrr0]
        have hkvr : kv.2.relationship = r0.relationship := by
          rw [← hre, ← hrr0]
        rcases hcond with hnone | ⟨v4, hv4, hdiff⟩
        · rw [hk1, hlook] at hnone
          exact absurd hnone (by simp)
        · rw [hk1, hlook] at hv4
          have hv4v : v4 = v := (Option.some.inj hv4).symm
          rcases hdiff with hd1 | hd2
          · rw [hv4v, hkvs] at hd1
            exact hd1 hs
          · rw [hv4v, hkvr] at hd2
            exact hd2 hr
  · intro p2 v2 hf2 hl2
    rw [syncOk_findRec cfg oracle cc rows now st hu p2 cc, if_pos rfl, hl2, hf2]
  · intro p3 v3 r3 hf3 hl3 hdiff3
    rw [syncOk_findRec cfg oracle cc rows now st hu p3 cc, if_pos rfl, hl3, hf3]
    dsimp only
    rw [if_pos hdiff3]

/-- C10 (witness): advertiser 7 is stored under name "Shop OLD" and fetched
with a different name but identical status and relationship; the stored row —
name and last_seen included — survives the sync verbatim. -/
theorem C10_frame_unchanged_witness :
    findRec (syncAndAlert
        ⟨true, true, true, true, true, 60, "smtp.example.com", 587, "user", "pass",
          "to@example.com", "from@example.com"⟩
        (fun _ => SmtpResult.success) "SE"
        (.ok [⟨some 7, none, none, some "Shop NEW", none, none, some "active", none,
          some "joined", none⟩]) 5
        ⟨[⟨7, "Shop OLD", "active", "joined", "SE", 1, 2⟩], [], 0, 0, []⟩).store 7 "SE" =
      some ⟨7, "Shop OLD", "active", "joined", "SE", 1, 2⟩ :=
  (C10_frame_unchanged
    ⟨true, true, true, true, true, 60, "smtp.example.com", 587, "user", "pass",
      "to@example.com", "from@example.com"⟩
    (fun _ => SmtpResult.success) "SE"
    [⟨some 7, none, none, some "Shop NEW", none, none, some "active", none,
      some "joined", none⟩] 5
    ⟨[⟨7, "Shop OLD", "active", "joined", "SE", 1, 2⟩], [], 0, 0, []⟩
    7 ⟨7, "Shop OLD", "active", "joined", "SE", 1, 2⟩
    ⟨"Shop NEW", "active", "joined"⟩ (by simp [keysUnique]) rfl rfl rfl rfl).1

end AffiliateHub
